import Mathlib

/-!
Verification of the transport/dispatch layer of `src/rpc/client.py`
(an LSP stdio client): message framing (`format_request` and the header
parsing in `Client.read_stdout`), JSON serialization and parsing as
performed by Python's `json.dumps` / `json.loads` (`ensure_ascii`
defaults, integer payload numbers; float literals, `NaN` and `Infinity`
are outside the payload model), the pending-handler table
(`Client.send_request` / `Client.response_handler`) and the payload
classification and dispatch of `Client.read_stdout`.

Strings are modelled as lists of Unicode code points (`List Nat`);
byte streams as lists of byte values (`List Nat`).  Recursions that are
not structural carry an explicit fuel argument; every wrapper passes
`length + 1` fuel, which the lemmas show is sufficient.
-/

namespace LSPClient

/-- A JSON value as produced by `json.loads`: `null`, booleans, integers,
strings (lists of code points), arrays and objects (association lists of
key/value pairs, in textual order).  Python floats are outside the model. -/
inductive Json where
  | null
  | bool (b : Bool)
  | int (i : Int)
  | str (s : List Nat)
  | arr (xs : List Json)
  | obj (kvs : List (List Nat × Json))

/-- Code points of a list of characters (helper for writing literals). -/
def cl (s : List Char) : List Nat := s.map Char.toNat

/-- Decimal digits of `n`, most significant first, with fuel (`natDecA f n`
is correct whenever `n < f`). -/
def natDecA : Nat → Nat → List Nat
  | 0, _ => []
  | f+1, n => if n < 10 then [48 + n] else natDecA f (n / 10) ++ [48 + n % 10]

/-- Decimal representation of a natural number, as code points. -/
def natDec (n : Nat) : List Nat := natDecA (n + 1) n

/-- Decimal representation of an integer (Python `repr` of an `int`). -/
def intDump (i : Int) : List Nat :=
  if i < 0 then 45 :: natDec i.natAbs else natDec i.toNat

/-- Lowercase hexadecimal digit for `d < 16` (as in Python `'%04x'`). -/
def hexDig (d : Nat) : Nat := if d < 10 then 48 + d else 87 + d

/-- Four lowercase hex digits of `n < 0x10000`. -/
def hex4 (n : Nat) : List Nat :=
  [hexDig (n / 4096 % 16), hexDig (n / 256 % 16), hexDig (n / 16 % 16), hexDig (n % 16)]

/-- One code point, escaped exactly as Python's `json.dumps` with the
default `ensure_ascii=True` does: the named escapes of `ESCAPE_DCT`,
printable ASCII verbatim, `\uXXXX` for everything else, with a UTF-16
surrogate pair for code points beyond `0xFFFF`. -/
def escapeChar (c : Nat) : List Nat :=
  if c = 34 then [92, 34]
  else if c = 92 then [92, 92]
  else if c = 8 then [92, 98]
  else if c = 12 then [92, 102]
  else if c = 10 then [92, 110]
  else if c = 13 then [92, 114]
  else if c = 9 then [92, 116]
  else if 32 ≤ c ∧ c ≤ 126 then [c]
  else if c < 65536 then 92 :: 117 :: hex4 c
  else 92 :: 117 :: hex4 (55296 + (c - 65536) / 1024) ++
       92 :: 117 :: hex4 (56320 + (c - 65536) % 1024)

/-- A whole string body, escaped character by character. -/
def escapeString : List Nat → List Nat
  | [] => []
  | c :: cs => escapeChar c ++ escapeString cs

mutual
/-- Serialization of a payload: Python `json.dumps(payload)` with the
default arguments (`ensure_ascii=True`, separators `", "` and `": "`,
insertion order preserved, `sort_keys=False` as in `format_request`). -/
def dumps : Json → List Nat
  | .null => [110, 117, 108, 108]
  | .bool true => [116, 114, 117, 101]
  | .bool false => [102, 97, 108, 115, 101]
  | .int i => intDump i
  | .str s => 34 :: escapeString s ++ [34]
  | .arr [] => [91, 93]
  | .arr (x :: xs) => 91 :: (dumps x ++ dumpsElemsTail xs ++ [93])
  | .obj [] => [123, 125]
  | .obj ((k, v) :: kvs) =>
      123 :: (34 :: escapeString k ++ 34 :: 58 :: 32 :: dumps v ++ dumpsMembersTail kvs ++ [125])

/-- Remaining array elements, each preceded by the `", "` separator. -/
def dumpsElemsTail : List Json → List Nat
  | [] => []
  | x :: xs => 44 :: 32 :: dumps x ++ dumpsElemsTail xs

/-- Remaining object members, each preceded by `", "`, keys serialized
like strings, followed by the `": "` separator. -/
def dumpsMembersTail : List (List Nat × Json) → List Nat
  | [] => []
  | (k, v) :: kvs => 44 :: 32 :: 34 :: escapeString k ++ 34 :: 58 :: 32 :: dumps v ++ dumpsMembersTail kvs
end

/-- A single valid code point: a Unicode scalar value. -/
def validCp (c : Nat) : Bool := decide (c < 1114112 ∧ ¬(55296 ≤ c ∧ c ≤ 57343))

mutual
/-- Validity of a payload: every string is made of Unicode scalar values
(below `0x110000` and not a UTF-16 surrogate), which is exactly what a
Python `str` that can be UTF-8 encoded contains. -/
def validJson : Json → Bool
  | .null => true
  | .bool _ => true
  | .int _ => true
  | .str s => s.all validCp
  | .arr xs => validElems xs
  | .obj kvs => validMembers kvs

/-- Validity for each element of an array. -/
def validElems : List Json → Bool
  | [] => true
  | x :: xs => validJson x && validElems xs

/-- Validity for each member of an object: the key is a valid string and
the value a valid payload. -/
def validMembers : List (List Nat × Json) → Bool
  | [] => true
  | (k, v) :: kvs => k.all validCp && validJson v && validMembers kvs
end

/-- The `b"Content-Length: "` header prefix of `Client.read_stdout`. -/
def contentLengthHeader : List Nat :=
  cl ['C', 'o', 'n', 't', 'e', 'n', 't', '-', 'L', 'e', 'n', 'g', 't', 'h', ':', ' ']

/-- Carriage return plus line feed. -/
def crlf : List Nat := [13, 10]

/-- The framing encoder `format_request` of `src/rpc/client.py`: serialize
the payload with `json.dumps`, measure `len(content)` (a character count)
and produce `"Content-Length: {}\r\n\r\n{}"`. -/
def format_request (payload : Json) : List Nat :=
  let content := dumps payload
  let content_length := content.length
  contentLengthHeader ++ natDec content_length ++ crlf ++ crlf ++ content

/-- Number of bytes the UTF-8 encoding of one code point occupies. -/
def utf8CharLen (c : Nat) : Nat :=
  if c < 128 then 1 else if c < 2048 then 2 else if c < 65536 then 3 else 4

/-- Byte length of the UTF-8 encoding of a string. -/
def utf8Len (s : List Nat) : Nat := (s.map utf8CharLen).sum

/-- UTF-8 encoding of one code point. -/
def utf8EncodeChar (c : Nat) : List Nat :=
  if c < 128 then [c]
  else if c < 2048 then [192 + c / 64, 128 + c % 64]
  else if c < 65536 then [224 + c / 4096, 128 + c / 64 % 64, 128 + c % 64]
  else [240 + c / 262144, 128 + c / 4096 % 64, 128 + c / 64 % 64, 128 + c % 64]

/-- UTF-8 encoding of a string: `bytes(message, 'UTF-8')` in Python. -/
def utf8Encode : List Nat → List Nat
  | [] => []
  | c :: cs => utf8EncodeChar c ++ utf8Encode cs

/-- Whether a byte is a UTF-8 continuation byte. -/
def utf8Cont (b : Nat) : Bool := decide (128 ≤ b ∧ b ≤ 191)

/-- Strict UTF-8 decoding with fuel (`bytes.decode("UTF-8")`): rejects
truncated sequences, overlong encodings, surrogates and out-of-range
code points, as Python's strict decoder does. -/
def utf8DecodeA : Nat → List Nat → Option (List Nat)
  | 0, _ => none
  | _, [] => some []
  | f+1, b :: rest =>
    if b < 128 then (utf8DecodeA f rest).map (b :: ·)
    else if 194 ≤ b ∧ b ≤ 223 then
      match rest with
      | b2 :: rest2 =>
        if utf8Cont b2 then (utf8DecodeA f rest2).map (((b - 192) * 64 + (b2 - 128)) :: ·)
        else none
      | [] => none
    else if 224 ≤ b ∧ b ≤ 239 then
      match rest with
      | b2 :: b3 :: rest3 =>
        if utf8Cont b2 && utf8Cont b3 then
          let c := (b - 224) * 4096 + (b2 - 128) * 64 + (b3 - 128)
          if 2048 ≤ c ∧ ¬(55296 ≤ c ∧ c ≤ 57343) then (utf8DecodeA f rest3).map (c :: ·)
          else none
        else none
      | _ => none
    else if 240 ≤ b ∧ b ≤ 244 then
      match rest with
      | b2 :: b3 :: b4 :: rest4 =>
        if utf8Cont b2 && utf8Cont b3 && utf8Cont b4 then
          let c := (b - 240) * 262144 + (b2 - 128) * 4096 + (b3 - 128) * 64 + (b4 - 128)
          if 65536 ≤ c ∧ c ≤ 1114111 then (utf8DecodeA f rest4).map (c :: ·)
          else none
        else none
      | _ => none
    else none

/-- Strict UTF-8 decoding of a byte list. -/
def utf8Decode (bs : List Nat) : Option (List Nat) := utf8DecodeA (bs.length + 1) bs

/-- Value of one hexadecimal digit character, if it is one. -/
def hexVal (c : Nat) : Option Nat :=
  if 48 ≤ c ∧ c ≤ 57 then some (c - 48)
  else if 97 ≤ c ∧ c ≤ 102 then some (c - 87)
  else if 65 ≤ c ∧ c ≤ 70 then some (c - 55)
  else none

/-- Value of a four-hex-digit escape body, if all four are hex digits. -/
def hex4Val (a b c d : Nat) : Option Nat :=
  match hexVal a, hexVal b, hexVal c, hexVal d with
  | some w, some x, some y, some z => some (w * 4096 + x * 256 + y * 16 + z)
  | _, _, _, _ => none

/-- The single-character escapes accepted by `json.loads` (`BACKSLASH`
table): quote, backslash, slash, `b`, `f`, `n`, `r`, `t`. -/
def simpleEscape (e : Nat) : Option Nat :=
  if e = 34 then some 34
  else if e = 92 then some 92
  else if e = 47 then some 47
  else if e = 98 then some 8
  else if e = 102 then some 12
  else if e = 110 then some 10
  else if e = 114 then some 13
  else if e = 116 then some 9
  else none

/-- String-body scanner of `json.loads` (`scanstring`, strict mode), with
fuel: consumes up to the closing quote; raw control characters are
rejected; `\uXXXX` escapes are decoded, joining a UTF-16 high/low
surrogate escape pair into one code point exactly as CPython does (a
lone surrogate escape is kept as is; a `\u` not followed by four hex
digits is an error). -/
def parseStringBodyA : Nat → List Nat → Option (List Nat × List Nat)
  | 0, _ => none
  | f+1, s =>
    match s with
    | [] => none
    | c :: rest =>
      if c = 34 then some ([], rest)
      else if c = 92 then
        match rest with
        | [] => none
        | e :: rest2 =>
          if e = 117 then
            match rest2 with
            | a :: b :: c2 :: d :: rest3 =>
              match hex4Val a b c2 d with
              | none => none
              | some u =>
                if 55296 ≤ u ∧ u ≤ 56319 then
                  match rest3 with
                  | 92 :: 117 :: a2 :: b2 :: c3 :: d2 :: rest5 =>
                    match hex4Val a2 b2 c3 d2 with
                    | none => none
                    | some u2 =>
                      if 56320 ≤ u2 ∧ u2 ≤ 57343 then
                        (parseStringBodyA f rest5).map
                          (fun p => ((65536 + (u - 55296) * 1024 + (u2 - 56320)) :: p.1, p.2))
                      else (parseStringBodyA f rest3).map (fun p => (u :: p.1, p.2))
                  | 92 :: 117 :: _ => none
                  | _ => (parseStringBodyA f rest3).map (fun p => (u :: p.1, p.2))
                else (parseStringBodyA f rest3).map (fun p => (u :: p.1, p.2))
            | _ => none
          else
            match simpleEscape e with
            | none => none
            | some sc => (parseStringBodyA f rest2).map (fun p => (sc :: p.1, p.2))
      else if c < 32 then none
      else (parseStringBodyA f rest).map (fun p => (c :: p.1, p.2))

/-- String-body scanner with sufficient fuel. -/
def parseStringBody (s : List Nat) : Option (List Nat × List Nat) :=
  parseStringBodyA (s.length + 1) s

/-- Whether a code point is a decimal digit character. -/
def isDigitB (c : Nat) : Bool := decide (48 ≤ c ∧ c ≤ 57)

/-- Greedily consume decimal digits, accumulating their value. -/
def grabDigits : Nat → List Nat → Nat × List Nat
  | acc, [] => (acc, [])
  | acc, c :: rest =>
    if 48 ≤ c ∧ c ≤ 57 then grabDigits (acc * 10 + (c - 48)) rest else (acc, c :: rest)

/-- The unsigned integer part of JSON's number grammar, `0|[1-9][0-9]*`:
a lone `0`, or a nonzero digit followed by any digits. -/
def parseUInt (s : List Nat) : Option (Nat × List Nat) :=
  match s with
  | [] => none
  | c :: rest =>
    if c = 48 then some (0, rest)
    else if 49 ≤ c ∧ c ≤ 57 then some (grabDigits (c - 48) rest)
    else none

/-- Whether the remaining input continues the number with a fraction part
(`.` followed by a digit), as in `NUMBER_RE`. -/
def fracFollows : List Nat → Bool
  | 46 :: d :: _ => isDigitB d
  | _ => false

/-- Whether the remaining input continues the number with an exponent part
(`e`/`E`, optional sign, at least one digit), as in `NUMBER_RE`. -/
def expFollows : List Nat → Bool
  | [] => false
  | c :: rest =>
    (c == 101 || c == 69) &&
      (match rest with
       | [] => false
       | s :: rest2 =>
         if s = 43 ∨ s = 45 then
           match rest2 with
           | d :: _ => isDigitB d
           | [] => false
         else isDigitB s)

/-- Number scanner of `json.loads` restricted to the payload model: an
optionally signed integer.  A match that `NUMBER_RE` would extend into a
float (fraction or exponent part follows) is outside the model and
reported as a failure, as are `NaN` and `Infinity`. -/
def parseNumber (s : List Nat) : Option (Json × List Nat) :=
  match s with
  | 45 :: rest =>
    match parseUInt rest with
    | some (n, r) =>
      if fracFollows r || expFollows r then none else some (.int (-(n : Int)), r)
    | none => none
  | _ =>
    match parseUInt s with
    | some (n, r) =>
      if fracFollows r || expFollows r then none else some (.int (n : Int), r)
    | none => none

/-- JSON whitespace, the character class of the decoder's `WHITESPACE`. -/
def isJsonWs (c : Nat) : Bool := c == 32 || c == 9 || c == 10 || c == 13

/-- Skip JSON whitespace. -/
def skipWs (s : List Nat) : List Nat := s.dropWhile isJsonWs

mutual
/-- Value scanner of `json.loads` (`scan_once`), with fuel: strings,
objects, arrays, the three keywords, and integers via `parseNumber`. -/
def parseVal : Nat → List Nat → Option (Json × List Nat)
  | 0, _ => none
  | f+1, s =>
    match s with
    | [] => none
    | c :: rest =>
      if c = 34 then (parseStringBody rest).map (fun p => (Json.str p.1, p.2))
      else if c = 123 then
        match skipWs rest with
        | 125 :: r2 => some (.obj [], r2)
        | r => (parseMembers f r).map (fun p => (Json.obj p.1, p.2))
      else if c = 91 then
        match skipWs rest with
        | 93 :: r2 => some (.arr [], r2)
        | r => (parseElems f r).map (fun p => (Json.arr p.1, p.2))
      else if c = 110 then
        match rest with
        | 117 :: 108 :: 108 :: r => some (.null, r)
        | _ => none
      else if c = 116 then
        match rest with
        | 114 :: 117 :: 101 :: r => some (.bool true, r)
        | _ => none
      else if c = 102 then
        match rest with
        | 97 :: 108 :: 115 :: 101 :: r => some (.bool false, r)
        | _ => none
      else parseNumber (c :: rest)

/-- One-or-more comma-separated array elements, up to the closing `]`
(`JSONArray`); whitespace is skipped around elements and separators. -/
def parseElems : Nat → List Nat → Option (List Json × List Nat)
  | 0, _ => none
  | f+1, s =>
    match parseVal f s with
    | none => none
    | some (v, r) =>
      match skipWs r with
      | 93 :: r2 => some ([v], r2)
      | 44 :: r2 => (parseElems f (skipWs r2)).map (fun p => (v :: p.1, p.2))
      | _ => none

/-- One-or-more object members, up to the closing brace (`JSONObject`):
a quoted key, whitespace, `:`, whitespace, a value, then `,` or the
closing brace. -/
def parseMembers : Nat → List Nat → Option (List (List Nat × Json) × List Nat)
  | 0, _ => none
  | f+1, s =>
    match s with
    | 34 :: rest =>
      match parseStringBody rest with
      | none => none
      | some (k, r1) =>
        match skipWs r1 with
        | 58 :: r2 =>
          match parseVal f (skipWs r2) with
          | none => none
          | some (v, r3) =>
            match skipWs r3 with
            | 125 :: r4 => some ([(k, v)], r4)
            | 44 :: r4 => (parseMembers f (skipWs r4)).map (fun p => ((k, v) :: p.1, p.2))
            | _ => none
        | _ => none
    | _ => none
end

/-- The decoder `json.loads`: skip leading whitespace, scan one value,
and require only whitespace to remain (`Extra data` otherwise). -/
def loads (s : List Nat) : Option Json :=
  match parseVal (s.length + 1) (skipWs s) with
  | some (v, r) => if (skipWs r).isEmpty then some v else none
  | none => none

/-- Python exception classes that can arise in the client, as distinct
tokens; the model tracks which class escapes where, since `read_stdout`
catches some classes and not others. -/
inductive PyExc where
  | ioError
  | valueError
  | keyError
  | typeError
  | attributeError
  | nameError
deriving DecidableEq

/-- The `readline` of a byte stream: everything up to and including the
first line feed (or the whole rest of the stream at end of file). -/
def readline : List Nat → List Nat × List Nat
  | [] => ([], [])
  | c :: rest =>
    if c = 10 then ([c], rest)
    else
      let p := readline rest
      (c :: p.1, p.2)

/-- Python bytes whitespace, as stripped by `bytes.strip()`. -/
def isPyWs (c : Nat) : Bool := c == 32 || c == 9 || c == 10 || c == 13 || c == 11 || c == 12

/-- Python `bytes.strip()`: whitespace removed from both ends. -/
def pyStripB (s : List Nat) : List Nat :=
  (((s.dropWhile isPyWs).reverse).dropWhile isPyWs).reverse

/-- Accumulated value of a digit string. -/
def digitsVal (ds : List Nat) : Nat := ds.foldl (fun a c => a * 10 + (c - 48)) 0

/-- Python `int()` applied to bytes: strip whitespace, optional sign,
then a nonempty run of decimal digits (digit-group underscores are not
modelled); anything else raises `ValueError`. -/
def pyIntBytes (s : List Nat) : Option Int :=
  match pyStripB s with
  | 43 :: ds => if !ds.isEmpty && ds.all isDigitB then some ((digitsVal ds : Nat) : Int) else none
  | 45 :: ds => if !ds.isEmpty && ds.all isDigitB then some (-((digitsVal ds : Nat) : Int)) else none
  | ds => if !ds.isEmpty && ds.all isDigitB then some ((digitsVal ds : Nat) : Int) else none

/-- Header phase of one `read_stdout` iteration (lines 73-81): read and
strip lines until a blank one; each `Content-Length: ` header overwrites
the declared length via `int(...)`, whose `ValueError` on a malformed
value escapes the surrounding `except IOError`. -/
def readHeadersA : Nat → List Nat → Int → Except PyExc (Int × List Nat)
  | 0, s, acc => .ok (acc, s)
  | f+1, s, acc =>
    let p := readline s
    let header := pyStripB p.1
    if header.isEmpty then .ok (acc, p.2)
    else if contentLengthHeader.isPrefixOf header then
      match pyIntBytes (header.drop contentLengthHeader.length) with
      | some n => readHeadersA f p.2 n
      | none => .error .valueError
    else readHeadersA f p.2 acc

/-- Decoding of one framed message from the protocol channel, as one
`read_stdout` iteration does it: parse headers, then — only if the
declared length is positive — read that many bytes, decode them as
UTF-8 and parse them with `json.loads`.  `none` as first component
means a non-positive length (no body read); an `⟨error⟩` result is an
exception class that `except IOError` does not catch (decode and parse
failures are `ValueError` subclasses). -/
def decodeMessage (s : List Nat) : Except PyExc (Option Json × List Nat) :=
  match readHeadersA (s.length + 1) s 0 with
  | .error e => .error e
  | .ok (clen, rest) =>
    if 0 < clen then
      let n := clen.toNat
      match utf8Decode (rest.take n) with
      | none => .error .valueError
      | some content =>
        match loads content with
        | none => .error .valueError
        | some payload => .ok (some payload, rest.drop n)
    else .ok (none, rest)

/-- The key `"id"`. -/
def keyId : List Nat := cl ['i', 'd']

/-- The key `"result"`. -/
def keyResult : List Nat := cl ['r', 'e', 's', 'u', 'l', 't']

/-- The key `"method"`. -/
def keyMethod : List Nat := cl ['m', 'e', 't', 'h', 'o', 'd']

/-- The key `"error"`. -/
def keyError : List Nat := cl ['e', 'r', 'r', 'o', 'r']

/-- The key `"message"`. -/
def keyMessage : List Nat := cl ['m', 'e', 's', 's', 'a', 'g', 'e']

/-- The key `"params"`. -/
def keyParams : List Nat := cl ['p', 'a', 'r', 'a', 'm', 's']

/-- The method name `"window/logMessage"`. -/
def methodLogMessage : List Nat :=
  cl ['w', 'i', 'n', 'd', 'o', 'w', '/', 'l', 'o', 'g', 'M', 'e', 's', 's', 'a', 'g', 'e']

/-- The method name `"window/showMessage"`. -/
def methodShowMessage : List Nat :=
  cl ['w', 'i', 'n', 'd', 'o', 'w', '/', 's', 'h', 'o', 'w', 'M', 'e', 's', 's', 'a', 'g', 'e']

/-- The method name `"textDocument/publishDiagnostics"`. -/
def methodPublishDiagnostics : List Nat :=
  cl ['t', 'e', 'x', 't', 'D', 'o', 'c', 'u', 'm', 'e', 'n', 't', '/',
      'p', 'u', 'b', 'l', 'i', 's', 'h', 'D', 'i', 'a', 'g', 'n', 'o', 's', 't', 'i', 'c', 's']

/-- The method name `"workspace/applyEdit"`. -/
def methodApplyEdit : List Nat :=
  cl ['w', 'o', 'r', 'k', 's', 'p', 'a', 'c', 'e', '/', 'a', 'p', 'p', 'l', 'y', 'E', 'd', 'i', 't']

/-- Field access on a decoded JSON object (`payload.get(key)`, `None`
when absent; keys of a decoded object are unique, so first match). -/
def jsonGet : List (List Nat × Json) → List Nat → Option Json
  | [], _ => none
  | (k, v) :: kvs, key => if k = key then some v else jsonGet kvs key

/-- Lookup in the pending-handler dictionary `self.handlers`
(`none` = key absent, which indexing turns into a `KeyError`).  A stored
value is `Option Nat`: `some tag` is a handler function identified by an
opaque tag (function objects are always truthy), `none` is Python `None`
(falsy). -/
def dictGet : List (Int × Option Nat) → Int → Option (Option Nat)
  | [], _ => none
  | (k, v) :: t, key => if k = key then some v else dictGet t key

/-- Insertion into the pending-handler dictionary
(`self.handlers[id] = handler`): replace in place or append. -/
def dictSet : List (Int × Option Nat) → Int → Option Nat → List (Int × Option Nat)
  | [], key, v => [(key, v)]
  | (k, v') :: t, key, v => if k = key then (key, v) :: t else (k, v') :: dictSet t key v

/-- Python `int()` applied to the value of the `"id"` field
(`int(response.get("id"))`): an `int` is returned as is, a `bool` maps
to 0/1, a decimal string (optionally signed, stripped) is parsed, and
everything else — including `None` for a missing field — raises. -/
def pyIntOfJson : Option Json → Option Int
  | some (.int n) => some n
  | some (.bool b) => some (if b then 1 else 0)
  | some (.str s) => pyIntBytes s
  | _ => none

/-- Observable effects of the client.  Log lines (`debug`/`printf`/
`server_log` from `..core.logging`, not under `src/`) and editor-side
effects are modelled as events; `handlerInvoked id tag result` records
that the callback stored under `id` (the function tagged `tag`) was
called with `result`. -/
inductive Ev where
  | debugRequest (id : Nat)
  | wireWrite (bytes : List Nat)
  | gotJson
  | debugGotError
  | statusMessage (m : Option Json)
  | handlerInvoked (id : Int) (tag : Nat) (result : Json)
  | debugNoHandler
  | debugRespError (id : Int)
  | printfHandlingErr
  | applyEdit (params : Option Json)
  | debugUnhandledRequest (m : Option Json)
  | diagnostics (params : Option Json)
  | messageDialog (m : Option Json)
  | serverLog (m : Option Json)
  | debugUnhandledNotif (m : Option Json)
  | debugUnknownPayload
  | stdoutEnded
  | printfStdoutExc

/-- Modelled from the spec: the `log_server` switch referenced on line
166 comes from the settings module, which is not under `src/` (spec §6:
the log sink is "gated by a boolean switch"). -/
def log_server : Bool := true

/-- The `Client.response_handler` of `src/rpc/client.py`: coerce the
`id` field with `int(...)` (the source comment notes servers that send
decimal strings), read `result` (default `None`), index the handler
table, and call the handler if it is truthy.  The second component is
the exception class escaping to the caller, if any: a missing key
raises `KeyError`, which the `except Exception` block logs and
re-raises; if `int(...)` itself raises, that block's reference to the
unbound `handler_id` raises a `NameError` instead; a falsy table entry
reaches the `"No handler found for id" + response.get("id")` log line,
whose string concatenation raises `TypeError` unless the id is a
string. -/
def response_handler (hs : List (Int × Option Nat)) (resp : List (List Nat × Json)) :
    List Ev × Option PyExc :=
  match pyIntOfJson (jsonGet resp keyId) with
  | none => ([], some .nameError)
  | some hid =>
    let result := (jsonGet resp keyResult).getD Json.null
    match dictGet hs hid with
    | none => ([Ev.debugRespError hid], some .keyError)
    | some none =>
      match jsonGet resp keyId with
      | some (.str _) => ([Ev.debugNoHandler], none)
      | _ => ([Ev.debugRespError hid], some .typeError)
    | some (some tag) => ([Ev.handlerInvoked hid tag result], none)

/-- The `Client.request_handler`: a `workspace/applyEdit` request goes to
the editor's workspace-edit action (`apply_workspace_edit`, an injected
editor-side collaborator per spec §6, modelled as an event), anything
else is logged as unhandled. -/
def request_handler (resp : List (List Nat × Json)) : List Ev × Option PyExc :=
  match jsonGet resp keyMethod with
  | some (.str m) =>
    if m = methodApplyEdit then ([Ev.applyEdit (jsonGet resp keyParams)], none)
    else ([Ev.debugUnhandledRequest (some (.str m))], none)
  | other => ([Ev.debugUnhandledRequest other], none)

/-- The `Client.notification_handler`: diagnostics go to the events bus,
`window/showMessage` to a message dialog, `window/logMessage` (when
`log_server` is set) to the server log, anything else is logged as
unhandled.  The dialog and log branches read
`response.get("params").get("message")`, which raises `AttributeError`
when `params` is missing or not an object.  The editor/event sinks are
injected collaborators (spec §6), modelled as events. -/
def notification_handler (resp : List (List Nat × Json)) : List Ev × Option PyExc :=
  match jsonGet resp keyMethod with
  | some (.str m) =>
    if m = methodPublishDiagnostics then ([Ev.diagnostics (jsonGet resp keyParams)], none)
    else if m = methodShowMessage then
      match jsonGet resp keyParams with
      | some (.obj pkvs) => ([Ev.messageDialog (jsonGet pkvs keyMessage)], none)
      | _ => ([], some .attributeError)
    else if m = methodLogMessage then
      if log_server then
        match jsonGet resp keyParams with
        | some (.obj pkvs) => ([Ev.serverLog (jsonGet pkvs keyMessage)], none)
        | _ => ([], some .attributeError)
      else ([Ev.debugUnhandledNotif (some (.str m))], none)
    else ([Ev.debugUnhandledNotif (some (.str m))], none)
  | other => ([Ev.debugUnhandledNotif other], none)

/-- Continuation of the read loop after one decoded payload: either the
next iteration runs, or an exception escaped the loop body and the
thread dies. -/
inductive StepFlow where
  | next
  | crash (e : PyExc)
deriving DecidableEq

/-- Lines 90-112 of `Client.read_stdout` for one successfully parsed
payload: the `got json` debug line (skipped for `window/logMessage`),
then classification — `error` field first (its message goes to the
editor status sink, `sublime.status_message`, an injected collaborator
per spec §6), then `method` with or without `id`, then bare `id` to
`response_handler`, else unknown.  Everything classified runs inside
`try/except Exception`, so an exception from a handler is logged
(`printf("Error handling server content:", ...)`), and the loop
continues; but a payload that is not an object raises `AttributeError`
at the `payload.get("method")` debug check, outside that guard, and
kills the loop.  No branch mutates the handler table. -/
def processPayload (hs : List (Int × Option Nat)) (payload : Json) :
    List (Int × Option Nat) × List Ev × StepFlow :=
  match payload with
  | .obj kvs =>
    let preEvs :=
      match jsonGet kvs keyMethod with
      | some (.str m) => if m = methodLogMessage then [] else [Ev.gotJson]
      | _ => [Ev.gotJson]
    match jsonGet kvs keyError with
    | some (.obj ekvs) =>
      (hs, preEvs ++ [Ev.debugGotError, Ev.statusMessage (jsonGet ekvs keyMessage)], .next)
    | some _ => (hs, preEvs ++ [Ev.debugGotError, Ev.printfHandlingErr], .next)
    | none =>
      if (jsonGet kvs keyMethod).isSome then
        if (jsonGet kvs keyId).isSome then
          match request_handler kvs with
          | (evs, none) => (hs, preEvs ++ evs, .next)
          | (evs, some _) => (hs, preEvs ++ evs ++ [Ev.printfHandlingErr], .next)
        else
          match notification_handler kvs with
          | (evs, none) => (hs, preEvs ++ evs, .next)
          | (evs, some _) => (hs, preEvs ++ evs ++ [Ev.printfHandlingErr], .next)
      else if (jsonGet kvs keyId).isSome then
        match response_handler hs kvs with
        | (evs, none) => (hs, preEvs ++ evs, .next)
        | (evs, some _) => (hs, preEvs ++ evs ++ [Ev.printfHandlingErr], .next)
      else (hs, preEvs ++ [Ev.debugUnknownPayload], .next)
  | _ => (hs, [], .crash .attributeError)

/-- Dispatch of a sequence of already-decoded payloads, in arrival
order; a crash stops the loop and discards the rest. -/
def processPayloads (hs : List (Int × Option Nat)) :
    List Json → List (Int × Option Nat) × List Ev × StepFlow
  | [] => (hs, [], .next)
  | p :: ps =>
    match processPayload hs p with
    | (hs2, evs, .next) =>
      let r := processPayloads hs2 ps
      (r.1, evs ++ r.2.1, r.2.2)
    | (hs2, evs, .crash e) => (hs2, evs, .crash e)

/-- The handler invocations among a list of events, as
`(table id, handler tag, result payload)` triples, in order. -/
def invocationsOf (evs : List Ev) : List (Int × Nat × Json) :=
  evs.filterMap (fun e =>
    match e with
    | .handlerInvoked id tag result => some (id, tag, result)
    | _ => none)

/-- The mutable state of a `Client` that the transport claims concern:
the request-id counter and the pending-handler table (`__init__` lines
26-27 start them at `0` and `{}`). -/
structure ClientState where
  request_id : Nat
  handlers : List (Int × Option Nat)

/-- The state right after `Client.__init__`. -/
def initState : ClientState := ⟨0, []⟩

/-- An inbound response message `{id, result}` (spec §6, Inbound
Response), as decoded from the wire. -/
def respMsg (i : Int) (r : Json) : Json := Json.obj [(keyId, .int i), (keyResult, r)]

/-- Modelled from the spec: `Request.to_payload` lives in
`src/rpc/protocol.py`, which is not among the provided sources; spec §6
gives the outbound request shape `{method, params, id}`. -/
def requestToPayload (method : List Nat) (params : Json) (id : Nat) : Json :=
  Json.obj [(keyMethod, .str method), (keyParams, params), (keyId, .int id)]

/-- The write path `Client.send_payload`: frame with `format_request`
and UTF-8 encode (`bytes(message, 'UTF-8')`).  The `BrokenPipeError`
catch cannot fire in this pure model of the byte channel. -/
def send_payload (payload : Json) : List Nat := utf8Encode (format_request payload)

/-- The `Client.send_request` of `src/rpc/client.py`: increment
`self.request_id`, log, store the handler under the new id if one was
given (`if handler is not None`), and write the framed request. -/
def send_request (st : ClientState) (method : List Nat) (params : Json) (handler : Option Nat) :
    ClientState × Nat × List Ev :=
  let rid := st.request_id + 1
  let hs :=
    match handler with
    | some h => dictSet st.handlers (rid : Int) (some h)
    | none => st.handlers
  (⟨rid, hs⟩, rid,
   [Ev.debugRequest rid, Ev.wireWrite (send_payload (requestToPayload method params rid))])

/-- A sequence of `send_request` calls with no interleaved responses;
returns the final state and the assigned ids in call order. -/
def sendN (st : ClientState) :
    List ((List Nat × Json) × Option Nat) → ClientState × List Nat
  | [] => (st, [])
  | ((m, p), h) :: rest =>
    let r := send_request st m p h
    let r2 := sendN r.1 rest
    (r2.1, r.2.1 :: r2.2)

/-- How a full run of the protocol-channel reader loop ended. -/
inductive LoopEnd where
  | processEnded
  | crashed (e : PyExc)
  | outOfFuel
deriving DecidableEq

/-- The `Client.read_stdout` loop with fuel: while the stream has bytes
(the model equates stream exhaustion with the subordinate process
having exited, which `poll()` reports at the top of each iteration),
decode one framed message and dispatch it.  An exception class other
than `IOError` escaping an iteration kills the loop (`crashed`); with a
positive length, decode/parse failures are `ValueError`s, which the
`except IOError` handlers at lines 93 and 114 do not catch. -/
def readStdoutA : Nat → List Nat → List (Int × Option Nat) →
    List (Int × Option Nat) × List Ev × LoopEnd
  | 0, _, hs => (hs, [], .outOfFuel)
  | f+1, s, hs =>
    if s.isEmpty then (hs, [Ev.stdoutEnded], .processEnded)
    else
      match decodeMessage s with
      | .error e => (hs, [], .crashed e)
      | .ok (none, rest) => readStdoutA f rest hs
      | .ok (some payload, rest) =>
        match processPayload hs payload with
        | (hs2, evs, .next) =>
          let r := readStdoutA f rest hs2
          (r.1, evs ++ r.2.1, r.2.2)
        | (hs2, evs, .crash e) => (hs2, evs, .crashed e)

/-- A full run of the protocol-channel reader loop over a byte stream. -/
def runReadStdout (s : List Nat) (hs : List (Int × Option Nat)) :
    List (Int × Option Nat) × List Ev × LoopEnd :=
  readStdoutA (s.length + 1) s hs

/-- The `except IOError` path of `Client.read_stdout` (lines 114-119):
log, terminate the subordinate, set `self.process = None` and return.
The shared process field is modelled as `Option Bool` (`none` after
this handler runs; otherwise whether the process is still alive). -/
def read_stdout_on_io_error (_process : Option Bool) : Option Bool × List Ev :=
  (none, [Ev.printfStdoutExc])

/-- Outcome of one top-of-loop liveness check of `Client.read_stderr`
(line 127). -/
inductive StderrStep where
  | reads
  | cleanExit
  | crashed (e : PyExc)
deriving DecidableEq

/-- One `while self.process.poll() is None` check of `read_stderr`: with
the process handle gone (`self.process = None`), the attribute access
itself raises `AttributeError`, which nothing in `read_stderr` catches
(its `except IOError` guards only the body, and would not match anyway);
otherwise the loop either reads a line or exits through the final
`debug("LSP stderr process ended.")`. -/
def read_stderr_poll (process : Option Bool) : StderrStep :=
  match process with
  | none => .crashed .attributeError
  | some alive => if alive then .reads else .cleanExit

/-- Whether a code point is printable ASCII (what `ensure_ascii`
serialization emits). -/
def printableB (c : Nat) : Bool := decide (32 ≤ c ∧ c ≤ 126)

/-- The serialized text of an object's first member followed by the
remaining members, exactly as `dumps` emits it between the braces. -/
def dumpsMember1 (k : List Nat) (v : Json) (kvs : List (List Nat × Json)) : List Nat :=
  34 :: escapeString k ++ 34 :: 58 :: 32 :: dumps v ++ dumpsMembersTail kvs

/-- A right context after which the number scanner stops exactly at the
printed digits: empty, or starting with something that neither extends
the digit run nor opens a fraction/exponent part. -/
def numSafeB : List Nat → Bool
  | [] => true
  | c :: _ => !isDigitB c && !(c == 46) && !(c == 101) && !(c == 69)

/-! ### Lemmas about the decimal printer -/

theorem natDecA_congr : ∀ f g n, n < f → n < g → natDecA f n = natDecA g n := by
  intro f
  induction f with
  | zero => intro g n h; omega
  | succ f ih =>
    intro g n hf hg
    cases g with
    | zero => omega
    | succ g =>
      simp only [natDecA]
      by_cases h : n < 10
      · simp [h]
      · have hd : n / 10 < n := Nat.div_lt_self (by omega) (by omega)
        simp only [if_neg h]
        rw [ih g (n / 10) (by omega) (by omega)]

theorem natDec_unfold (n : Nat) :
    natDec n = if n < 10 then [48 + n] else natDec (n / 10) ++ [48 + n % 10] := by
  by_cases h : n < 10
  · simp [natDec, natDecA, h]
  · have hd : n / 10 < n := Nat.div_lt_self (by omega) (by omega)
    have h1 : natDec n = natDecA n (n / 10) ++ [48 + n % 10] := by
      simp [natDec, natDecA, h]
    rw [h1, if_neg h, natDecA_congr n (n / 10 + 1) (n / 10) (by omega) (by omega)]
    rfl

theorem natDec_digits : ∀ n, ∀ c ∈ natDec n, 48 ≤ c ∧ c ≤ 57 := by
  intro n
  induction n using Nat.strong_induction_on with
  | _ n ih =>
    intro c hc
    rw [natDec_unfold] at hc
    by_cases h : n < 10
    · rw [if_pos h] at hc
      simp only [List.mem_singleton] at hc
      omega
    · have hd : n / 10 < n := Nat.div_lt_self (by omega) (by omega)
      rw [if_neg h] at hc
      rcases List.mem_append.mp hc with h1 | h1
      · exact ih (n / 10) hd c h1
      · simp only [List.mem_singleton] at h1
        have : n % 10 < 10 := Nat.mod_lt _ (by omega)
        omega

theorem natDec_ne_nil (n : Nat) : natDec n ≠ [] := by
  rw [natDec_unfold]
  by_cases h : n < 10
  · simp [h]
  · simp [h]

theorem natDec_head (n : Nat) (h : 1 ≤ n) :
    ∃ c t, natDec n = c :: t ∧ 49 ≤ c ∧ c ≤ 57 := by
  induction n using Nat.strong_induction_on with
  | _ n ih =>
    rw [natDec_unfold]
    by_cases h10 : n < 10
    · exact ⟨48 + n, [], by simp [h10], by omega, by omega⟩
    · have hd : n / 10 < n := Nat.div_lt_self (by omega) (by omega)
      have h1 : 1 ≤ n / 10 := Nat.one_le_div_iff (by omega) |>.mpr (by omega)
      obtain ⟨c, t, he, hc1, hc2⟩ := ih (n / 10) hd h1
      exact ⟨c, t ++ [48 + n % 10], by simp [h10, he], hc1, hc2⟩

/-! ### Serialized output is printable ASCII -/

theorem hexDig_range (d : Nat) (h : d < 16) : 48 ≤ hexDig d ∧ hexDig d ≤ 102 := by
  unfold hexDig
  by_cases h10 : d < 10 <;> simp [h10] <;> omega

theorem printableB_hexDig_mod (x : Nat) : printableB (hexDig (x % 16)) = true := by
  have h : x % 16 < 16 := Nat.mod_lt _ (by omega)
  unfold printableB hexDig
  split_ifs <;> simp <;> omega

theorem hex4_all (n : Nat) : (hex4 n).all printableB = true := by
  simp [hex4, printableB_hexDig_mod]

theorem escapeChar_all (c : Nat) : (escapeChar c).all printableB = true := by
  unfold escapeChar
  split_ifs with h1 h2 h3 h4 h5 h6 h7 h8 h9
  · simp [printableB]
  · simp [printableB]
  · simp [printableB]
  · simp [printableB]
  · simp [printableB]
  · simp [printableB]
  · simp [printableB]
  · simp only [List.all_cons, List.all_nil, Bool.and_true]
    simp [printableB]
    omega
  · simp [hex4_all, printableB]
  · simp [List.all_append, hex4_all, printableB]

theorem escapeString_all (s : List Nat) : (escapeString s).all printableB = true := by
  induction s with
  | nil => rfl
  | cons c cs ih => simp [escapeString, List.all_append, escapeChar_all, ih]

theorem natDec_all (n : Nat) : (natDec n).all printableB = true :=
  List.all_eq_true.mpr (fun c hc => by
    have := natDec_digits n c hc
    simp only [printableB, decide_eq_true_eq]
    omega)

theorem intDump_all (i : Int) : (intDump i).all printableB = true := by
  unfold intDump
  split_ifs
  · simp [natDec_all, printableB]
  · exact natDec_all _

mutual
theorem dumps_all : ∀ (v : Json), (dumps v).all printableB = true
  | .null => by simp [dumps, printableB]
  | .bool true => by simp [dumps, printableB]
  | .bool false => by simp [dumps, printableB]
  | .int i => intDump_all i
  | .str s => by simp [dumps, List.all_append, escapeString_all s, printableB]
  | .arr [] => by simp [dumps, printableB]
  | .arr (x :: xs) => by
      simp [dumps, List.all_append, dumps_all x, dumpsElemsTail_all xs, printableB]
  | .obj [] => by simp [dumps, printableB]
  | .obj ((k, v) :: kvs) => by
      simp [dumps, List.all_append, escapeString_all k, dumps_all v,
        dumpsMembersTail_all kvs, printableB]

theorem dumpsElemsTail_all : ∀ (xs : List Json), (dumpsElemsTail xs).all printableB = true
  | [] => rfl
  | x :: xs => by
      simp [dumpsElemsTail, List.all_append, dumps_all x, dumpsElemsTail_all xs, printableB]

theorem dumpsMembersTail_all :
    ∀ (kvs : List (List Nat × Json)), (dumpsMembersTail kvs).all printableB = true
  | [] => rfl
  | (k, v) :: kvs => by
      simp [dumpsMembersTail, List.all_append, escapeString_all k, dumps_all v,
        dumpsMembersTail_all kvs, printableB]
end

theorem dumps_ascii (v : Json) : ∀ c ∈ dumps v, 32 ≤ c ∧ c ≤ 126 := fun c hc => by
  have := List.all_eq_true.mp (dumps_all v) c hc
  simpa [printableB] using this

/-! ### UTF-8 on ASCII text -/

theorem utf8Len_ascii (s : List Nat) (h : ∀ c ∈ s, c < 128) : utf8Len s = s.length := by
  induction s with
  | nil => rfl
  | cons c cs ih =>
    have hc : c < 128 := h c (by simp)
    simp only [utf8Len, List.map_cons, List.sum_cons, utf8CharLen, if_pos hc, List.length_cons]
    have := ih (fun x hx => h x (by simp [hx]))
    simp only [utf8Len] at this
    omega

theorem utf8Encode_ascii (s : List Nat) (h : ∀ c ∈ s, c < 128) : utf8Encode s = s := by
  induction s with
  | nil => rfl
  | cons c cs ih =>
    have hc : c < 128 := h c (by simp)
    simp only [utf8Encode, utf8EncodeChar, if_pos hc]
    rw [ih (fun x hx => h x (by simp [hx]))]
    rfl

theorem utf8DecodeA_ascii :
    ∀ f s, s.length < f → (∀ c ∈ s, c < 128) → utf8DecodeA f s = some s := by
  intro f
  induction f with
  | zero => intro s h; omega
  | succ f ih =>
    intro s hl h
    cases s with
    | nil => rfl
    | cons c cs =>
      have hc : c < 128 := h c (by simp)
      simp only [utf8DecodeA, if_pos hc]
      rw [ih cs (by simpa using hl) (fun x hx => h x (by simp [hx]))]
      rfl

theorem utf8Decode_ascii (s : List Nat) (h : ∀ c ∈ s, c < 128) : utf8Decode s = some s :=
  utf8DecodeA_ascii (s.length + 1) s (by omega) h

/-- Every byte of a serialized payload is ASCII, so the UTF-8 byte
length of the body equals the character count that `format_request`
actually measures with `len(content)`. -/
theorem utf8Len_dumps (p : Json) : utf8Len (dumps p) = (dumps p).length :=
  utf8Len_ascii _ (fun c hc => by have := dumps_ascii p c hc; omega)

/-- C5: for every payload, `Encode` serializes it and produces exactly
`"Content-Length: {byteLength}\r\n\r\n{body}"`, where `byteLength` is
the byte length of the UTF-8-encoded serialized body.  (`format_request`
measures `len(content)`, a character count, but `json.dumps` with its
default `ensure_ascii=True` yields pure-ASCII text, so the two lengths
coincide.) -/
theorem c5_encode_shape (p : Json) :
    format_request p =
      contentLengthHeader ++ natDec (utf8Len (dumps p)) ++ crlf ++ crlf ++ dumps p := by
  rw [format_request, utf8Len_dumps p]

/-! ### Parsing back the Content-Length header -/

theorem dropWhile_of_all_neg (p : Nat → Bool) :
    ∀ l : List Nat, (∀ c ∈ l, p c = false) → l.dropWhile p = l := by
  intro l h
  cases l with
  | nil => rfl
  | cons c t => rw [List.dropWhile_cons, h c (by simp)]; simp

theorem pyStripB_eq_self (l : List Nat) (h : ∀ c ∈ l, isPyWs c = false) : pyStripB l = l := by
  unfold pyStripB
  rw [dropWhile_of_all_neg _ l h,
      dropWhile_of_all_neg _ l.reverse (fun c hc => h c (List.mem_reverse.mp hc)),
      List.reverse_reverse]

theorem pyStripB_wrap (l : List Nat)
    (hhead : ∃ c t, l = c :: t ∧ isPyWs c = false)
    (hlast : ∃ d t', l.reverse = d :: t' ∧ isPyWs d = false) :
    pyStripB (l ++ [13, 10]) = l := by
  obtain ⟨c, t, rfl, hc⟩ := hhead
  obtain ⟨d, t', hrev, hd⟩ := hlast
  unfold pyStripB
  have hfront : ((c :: t) ++ [13, 10]).dropWhile isPyWs = (c :: t) ++ [13, 10] := by
    rw [List.cons_append, List.dropWhile_cons, hc]
    simp
  rw [hfront]
  have hrev2 : ((c :: t) ++ [13, 10]).reverse = 10 :: 13 :: d :: t' := by
    rw [List.reverse_append, hrev]
    rfl
  rw [hrev2]
  have h10 : isPyWs 10 = true := by decide
  have h13 : isPyWs 13 = true := by decide
  rw [List.dropWhile_cons, h10, if_pos rfl, List.dropWhile_cons, h13, if_pos rfl,
      List.dropWhile_cons, hd]
  simp only [Bool.false_eq_true, if_false]
  rw [← hrev, List.reverse_reverse]

theorem isPrefixOf_append_self : ∀ (l x : List Nat), l.isPrefixOf (l ++ x) = true := by
  intro l x
  induction l with
  | nil => simp [List.isPrefixOf]
  | cons c t ih => simp [List.isPrefixOf, ih]

theorem isPyWs_of_digit (c : Nat) (h1 : 48 ≤ c) (h2 : c ≤ 57) : isPyWs c = false := by
  simp only [isPyWs, Bool.or_eq_false_iff, beq_eq_false_iff_ne, ne_eq]
  omega

theorem clh_no10 : ∀ c ∈ contentLengthHeader, c ≠ 10 := by decide

theorem natDec_last (n : Nat) : ∃ d t, (natDec n).reverse = d :: t ∧ 48 ≤ d ∧ d ≤ 57 := by
  cases hn : (natDec n).reverse with
  | nil => exact absurd (List.reverse_eq_nil_iff.mp hn) (natDec_ne_nil n)
  | cons d t =>
    have hd : d ∈ natDec n := List.mem_reverse.mp (by rw [hn]; simp)
    exact ⟨d, t, rfl, natDec_digits n d hd⟩

theorem digitsVal_foldl (n : Nat) :
    ∀ acc, (natDec n).foldl (fun a c => a * 10 + (c - 48)) acc =
      acc * 10 ^ (natDec n).length + n := by
  induction n using Nat.strong_induction_on with
  | _ n ih =>
    intro acc
    rw [natDec_unfold]
    by_cases h : n < 10
    · simp only [if_pos h, List.foldl_cons, List.foldl_nil, List.length_cons,
        List.length_nil, pow_one, zero_add]
      omega
    · have hd : n / 10 < n := Nat.div_lt_self (by omega) (by omega)
      simp only [if_neg h, List.foldl_append, List.foldl_cons, List.foldl_nil,
        List.length_append, List.length_cons, List.length_nil]
      rw [ih (n / 10) hd acc]
      have hmod : 48 + n % 10 - 48 = n % 10 := by omega
      rw [hmod, pow_succ]
      have hdm : n / 10 * 10 + n % 10 = n := by omega
      calc (acc * 10 ^ (natDec (n / 10)).length + n / 10) * 10 + n % 10
          = acc * (10 ^ (natDec (n / 10)).length * 10) + (n / 10 * 10 + n % 10) := by ring
        _ = acc * (10 ^ (natDec (n / 10)).length * 10) + n := by rw [hdm]

theorem digitsVal_natDec (n : Nat) : digitsVal (natDec n) = n := by
  have := digitsVal_foldl n 0
  simpa [digitsVal] using this

theorem pyIntBytes_natDec (n : Nat) : pyIntBytes (natDec n) = some (n : Int) := by
  have hstrip : pyStripB (natDec n) = natDec n :=
    pyStripB_eq_self _ (fun c hc => by
      have := natDec_digits n c hc
      exact isPyWs_of_digit c this.1 this.2)
  obtain ⟨c, t, he, hd⟩ : ∃ c t, natDec n = c :: t ∧ 48 ≤ c ∧ c ≤ 57 := by
    cases hn : natDec n with
    | nil => exact absurd hn (natDec_ne_nil n)
    | cons c t =>
      have := natDec_digits n c (by rw [hn]; simp)
      exact ⟨c, t, rfl, this⟩
  unfold pyIntBytes
  rw [hstrip, he]
  have h43 : c ≠ 43 := by omega
  have h45 : c ≠ 45 := by omega
  have hall : (c :: t).all isDigitB = true := by
    rw [← he]
    exact List.all_eq_true.mpr (fun x hx => by
      have := natDec_digits n x hx
      simp only [isDigitB, decide_eq_true_eq]
      omega)
  have hres : (!(c :: t).isEmpty && (c :: t).all isDigitB) = true := by
    simp [hall]
  split
  · next ds heq => exact absurd (List.cons.injEq .. ▸ heq) (by simp [h43])
  · next ds heq => exact absurd (List.cons.injEq .. ▸ heq) (by simp [h45])
  · next h1 h2 =>
    rw [hres]
    simp only [if_true, Option.some.injEq]
    rw [← he, digitsVal_natDec]

theorem readline_append (pre rest : List Nat) (h : ∀ c ∈ pre, c ≠ 10) :
    readline (pre ++ 10 :: rest) = (pre ++ [10], rest) := by
  induction pre with
  | nil => simp [readline]
  | cons c t ih =>
    rw [List.cons_append]
    rw [show readline (c :: (t ++ 10 :: rest)) =
          if c = 10 then ([c], t ++ 10 :: rest)
          else (c :: (readline (t ++ 10 :: rest)).1, (readline (t ++ 10 :: rest)).2) from rfl]
    rw [if_neg (h c (by simp)), ih (fun x hx => h x (by simp [hx]))]
    rfl

theorem readHeadersA_encode (f : Nat) (L : Nat) (body : List Nat) (acc : Int) (hf : 2 ≤ f) :
    readHeadersA f (contentLengthHeader ++ natDec L ++ 13 :: 10 :: 13 :: 10 :: body) acc =
      .ok ((L : Int), body) := by
  obtain ⟨f2, rfl⟩ : ∃ f2, f = f2 + 2 := ⟨f - 2, by omega⟩
  have hdig := natDec_digits L
  have hno10 : ∀ c ∈ contentLengthHeader ++ natDec L ++ [13], c ≠ 10 := by
    intro c hc
    rcases List.mem_append.mp hc with hc | hc
    · rcases List.mem_append.mp hc with hc | hc
      · exact clh_no10 c hc
      · have := hdig c hc; omega
    · simp only [List.mem_singleton] at hc; omega
  have hshape : contentLengthHeader ++ natDec L ++ 13 :: 10 :: 13 :: 10 :: body =
      (contentLengthHeader ++ natDec L ++ [13]) ++ 10 :: 13 :: 10 :: body := by
    simp
  have hline := readline_append (contentLengthHeader ++ natDec L ++ [13]) (13 :: 10 :: body) hno10
  have hstrip : pyStripB (contentLengthHeader ++ natDec L ++ [13] ++ [10]) =
      contentLengthHeader ++ natDec L := by
    have hs2 : contentLengthHeader ++ natDec L ++ [13] ++ [10] =
        (contentLengthHeader ++ natDec L) ++ [13, 10] := by simp
    rw [hs2]
    refine pyStripB_wrap _ ⟨67, contentLengthHeader.tail ++ natDec L, ?_, by decide⟩ ?_
    · simp [contentLengthHeader, cl]
    · obtain ⟨d, t, hrev, hd1, hd2⟩ := natDec_last L
      refine ⟨d, t ++ contentLengthHeader.reverse, ?_, isPyWs_of_digit d hd1 hd2⟩
      rw [List.reverse_append, hrev]
      rfl
  have hnonempty : (contentLengthHeader ++ natDec L).isEmpty = false := by
    simp [contentLengthHeader, cl]
  have hpref : contentLengthHeader.isPrefixOf (contentLengthHeader ++ natDec L) = true :=
    isPrefixOf_append_self _ _
  have hline2 : readline (13 :: 10 :: body) = ([13, 10], body) := by
    have hs3 : (13 : Nat) :: 10 :: body = [13] ++ 10 :: body := by simp
    rw [hs3, readline_append [13] body (by simp)]
    simp
  have hstrip2 : pyStripB [13, 10] = [] := by decide
  rw [hshape]
  simp only [readHeadersA, hline, hstrip, hnonempty, hpref, Bool.false_eq_true, if_false,
    if_true, List.drop_left, pyIntBytes_natDec, hline2, hstrip2, List.isEmpty_nil]

theorem dumps_ne_nil : ∀ v : Json, dumps v ≠ [] := by
  intro v
  cases v with
  | null => simp [dumps]
  | bool b => cases b <;> simp [dumps]
  | int i =>
    simp only [dumps, intDump]
    split_ifs
    · simp
    · exact natDec_ne_nil _
  | str s => simp [dumps]
  | arr xs => cases xs <;> simp [dumps]
  | obj kvs =>
    cases kvs with
    | nil => simp [dumps]
    | cons kv t => cases kv; simp [dumps]

theorem format_request_ascii (p : Json) : ∀ c ∈ format_request p, c < 128 := by
  intro c hc
  simp only [format_request, List.mem_append] at hc
  rcases hc with ((((hc | hc) | hc) | hc) | hc)
  · revert hc; revert c; decide
  · have := natDec_digits _ c hc; omega
  · simp only [crlf, List.mem_cons, List.mem_singleton, List.not_mem_nil, or_false] at hc
    omega
  · simp only [crlf, List.mem_cons, List.mem_singleton, List.not_mem_nil, or_false] at hc
    omega
  · have := dumps_ascii p c hc; omega

/-! ### The string scanner inverts the string escaper -/

theorem hexVal_hexDig (d : Nat) (h : d < 16) : hexVal (hexDig d) = some d := by
  unfold hexVal hexDig
  by_cases h10 : d < 10
  · rw [if_pos h10, if_pos (by omega)]
    simp only [Option.some.injEq]
    omega
  · rw [if_neg h10, if_neg (by omega), if_pos (by omega)]
    simp only [Option.some.injEq]
    omega

theorem hex4Val_hex4 (n : Nat) (h : n < 65536) :
    hex4Val (hexDig (n / 4096 % 16)) (hexDig (n / 256 % 16))
      (hexDig (n / 16 % 16)) (hexDig (n % 16)) = some n := by
  simp only [hex4Val,
    hexVal_hexDig (n / 4096 % 16) (Nat.mod_lt _ (by omega)),
    hexVal_hexDig (n / 256 % 16) (Nat.mod_lt _ (by omega)),
    hexVal_hexDig (n / 16 % 16) (Nat.mod_lt _ (by omega)),
    hexVal_hexDig (n % 16) (Nat.mod_lt _ (by omega)),
    Option.some.injEq]
  omega

theorem psbA_pair (hi lo : Nat) (hhi16 : hi < 65536) (hlo16 : lo < 65536)
    (hinhi : 55296 ≤ hi ∧ hi ≤ 56319) (hinlo : 56320 ≤ lo ∧ lo ≤ 57343) (f : Nat) (X : List Nat) :
    parseStringBodyA (f + 1) ((92 :: 117 :: hex4 hi ++ 92 :: 117 :: hex4 lo) ++ X) =
      (parseStringBodyA f X).map
        (fun p => ((65536 + (hi - 55296) * 1024 + (lo - 56320)) :: p.1, p.2)) := by
  simp only [hex4, List.cons_append, List.nil_append, List.append_assoc]
  simp [parseStringBodyA, hex4Val_hex4 _ hhi16, hex4Val_hex4 _ hlo16, hinhi, hinlo]

theorem psbA_escapeChar (c : Nat) (hv : validCp c = true) (f : Nat) (X : List Nat) :
    parseStringBodyA (f + 1) (escapeChar c ++ X) =
      (parseStringBodyA f X).map (fun p => (c :: p.1, p.2)) := by
  have hvc : c < 1114112 ∧ (c < 55296 ∨ 57343 < c) := by simpa [validCp] using hv
  unfold escapeChar
  split_ifs with h1 h2 h3 h4 h5 h6 h7 h8 h9
  · subst h1; simp [parseStringBodyA, simpleEscape]
  · subst h2; simp [parseStringBodyA, simpleEscape]
  · subst h3; simp [parseStringBodyA, simpleEscape]
  · subst h4; simp [parseStringBodyA, simpleEscape]
  · subst h5; simp [parseStringBodyA, simpleEscape]
  · subst h6; simp [parseStringBodyA, simpleEscape]
  · subst h7; simp [parseStringBodyA, simpleEscape]
  · simp only [List.singleton_append, parseStringBodyA]
    rw [if_neg h1, if_neg h2, if_neg (show ¬c < 32 by omega)]
  · -- `\uXXXX` for a BMP code point that is not a surrogate
    simp only [hex4, List.cons_append, List.nil_append]
    simp [parseStringBodyA, hex4Val_hex4 c h9,
      show ¬(55296 ≤ c ∧ c ≤ 56319) by omega]
  · -- a surrogate-pair escape for an astral code point
    have hc1 : 65536 ≤ c := by omega
    have hc2 : c ≤ 1114111 := by omega
    have hhi : 55296 + (c - 65536) / 1024 < 65536 := by omega
    have hlo : 56320 + (c - 65536) % 1024 < 65536 := by
      have := Nat.mod_lt (c - 65536) (show 0 < 1024 by omega)
      omega
    have hinhi : 55296 ≤ 55296 + (c - 65536) / 1024 ∧ 55296 + (c - 65536) / 1024 ≤ 56319 := by
      have : (c - 65536) / 1024 ≤ 1023 := by omega
      omega
    have hinlo : 56320 ≤ 56320 + (c - 65536) % 1024 ∧ 56320 + (c - 65536) % 1024 ≤ 57343 := by
      have := Nat.mod_lt (c - 65536) (show 0 < 1024 by omega)
      omega
    have hjoin : 65536 + (55296 + (c - 65536) / 1024 - 55296) * 1024 +
        (56320 + (c - 65536) % 1024 - 56320) = c := by
      have := Nat.div_add_mod (c - 65536) 1024
      omega
    rw [psbA_pair _ _ hhi hlo hinhi hinlo f X, hjoin]

theorem psbA_escapeString :
    ∀ (s : List Nat) (f : Nat) (rest : List Nat), s.all validCp = true → s.length + 1 ≤ f →
      parseStringBodyA f (escapeString s ++ 34 :: rest) = some (s, rest) := by
  intro s
  induction s with
  | nil =>
    intro f rest _ hf
    obtain ⟨g, rfl⟩ : ∃ g, f = g + 1 := ⟨f - 1, by omega⟩
    simp [escapeString, parseStringBodyA]
  | cons c cs ih =>
    intro f rest hv hf
    obtain ⟨g, rfl⟩ : ∃ g, f = g + 1 := ⟨f - 1, by omega⟩
    simp only [List.all_cons, Bool.and_eq_true] at hv
    have hshape : escapeString (c :: cs) ++ 34 :: rest =
        escapeChar c ++ (escapeString cs ++ 34 :: rest) := by
      simp [escapeString]
    rw [hshape, psbA_escapeChar c hv.1 g _,
        ih g rest hv.2 (by simp at hf; omega)]
    rfl

theorem escapeChar_ne_nil (c : Nat) : escapeChar c ≠ [] := by
  unfold escapeChar
  split_ifs <;> simp

theorem escapeString_length_ge (s : List Nat) : s.length ≤ (escapeString s).length := by
  induction s with
  | nil => simp [escapeString]
  | cons c cs ih =>
    simp only [escapeString, List.length_append, List.length_cons]
    have h1 : 1 ≤ (escapeChar c).length := by
      cases he : escapeChar c with
      | nil => exact absurd he (escapeChar_ne_nil c)
      | cons a t => simp
    omega

theorem psb_escapeString (s : List Nat) (rest : List Nat) (hv : s.all validCp = true) :
    parseStringBody (escapeString s ++ 34 :: rest) = some (s, rest) := by
  apply psbA_escapeString s _ rest hv
  have := escapeString_length_ge s
  simp only [List.length_append, List.length_cons]
  omega

/-! ### The number scanner inverts the integer printer -/

theorem grabDigits_append (ds : List Nat) (h : ∀ c ∈ ds, 48 ≤ c ∧ c ≤ 57) :
    ∀ acc (rest : List Nat), numSafeB rest = true →
      grabDigits acc (ds ++ rest) = (ds.foldl (fun a c => a * 10 + (c - 48)) acc, rest) := by
  induction ds with
  | nil =>
    intro acc rest hns
    cases rest with
    | nil => rfl
    | cons c t =>
      simp only [numSafeB, Bool.and_eq_true, Bool.not_eq_true'] at hns
      have : isDigitB c = false := hns.1.1.1
      simp only [List.nil_append, grabDigits, List.foldl_nil]
      rw [if_neg (by simpa [isDigitB] using this)]
  | cons d ds ih =>
    intro acc rest hns
    have hd := h d (by simp)
    simp only [List.cons_append, grabDigits, List.foldl_cons]
    rw [if_pos hd, show ds.append rest = ds ++ rest from rfl,
        ih (fun c hc => h c (by simp [hc])) _ rest hns]

theorem natDec_cons (n : Nat) : ∃ c t, natDec n = c :: t ∧ 48 ≤ c ∧ c ≤ 57 := by
  cases hn : natDec n with
  | nil => exact absurd hn (natDec_ne_nil n)
  | cons c t =>
    have := natDec_digits n c (by rw [hn]; simp)
    exact ⟨c, t, rfl, this⟩

theorem parseUInt_natDec (n : Nat) (rest : List Nat) (hns : numSafeB rest = true) :
    parseUInt (natDec n ++ rest) = some (n, rest) := by
  by_cases h0 : n = 0
  · subst h0
    have : natDec 0 = [48] := rfl
    rw [this]
    simp only [List.cons_append, List.nil_append, parseUInt, if_pos rfl]
    cases rest with
    | nil => rfl
    | cons c t => rfl
  · obtain ⟨c, t, he, hc1, hc2⟩ := natDec_cons n
    have hc49 : 49 ≤ c := by
      rcases natDec_head n (by omega) with ⟨c', t', he', h1, h2⟩
      rw [he] at he'
      cases he'
      omega
    rw [he, List.cons_append]
    simp only [parseUInt]
    rw [if_neg (by omega), if_pos (by omega)]
    have hmem : ∀ x ∈ t, 48 ≤ x ∧ x ≤ 57 := fun x hx =>
      natDec_digits n x (by rw [he]; simp [hx])
    rw [grabDigits_append t hmem (c - 48) rest hns]
    have hval : t.foldl (fun a c => a * 10 + (c - 48)) (c - 48) = n := by
      have h1 := digitsVal_natDec n
      rw [he] at h1
      simpa [digitsVal, List.foldl_cons] using h1
    rw [hval]

theorem fracFollows_of_numSafe (rest : List Nat) (hns : numSafeB rest = true) :
    fracFollows rest = false := by
  cases rest with
  | nil => rfl
  | cons c t =>
    simp only [numSafeB, Bool.and_eq_true, Bool.not_eq_true'] at hns
    have h46 : c ≠ 46 := by simpa using hns.1.1.2
    simp only [fracFollows]
    split
    · rename_i d tail heq
      injection heq with hh _
      exact absurd hh h46
    · rfl

theorem expFollows_of_numSafe (rest : List Nat) (hns : numSafeB rest = true) :
    expFollows rest = false := by
  cases rest with
  | nil => rfl
  | cons c t =>
    simp only [numSafeB, Bool.and_eq_true, Bool.not_eq_true'] at hns
    simp only [expFollows, Bool.and_eq_false_iff]
    left
    have h101 : (c == 101) = false := hns.1.2
    have h69 : (c == 69) = false := hns.2
    simp only [Bool.or_eq_false_iff]
    exact ⟨h101, h69⟩

theorem parseNumber_intDump (i : Int) (rest : List Nat) (hns : numSafeB rest = true) :
    parseNumber (intDump i ++ rest) = some (.int i, rest) := by
  unfold intDump
  split_ifs with hneg
  · rw [List.cons_append]
    have h1 : parseNumber (45 :: (natDec i.natAbs ++ rest)) =
        match parseUInt (natDec i.natAbs ++ rest) with
        | some (n, r) =>
          if fracFollows r || expFollows r then none else some (.int (-(n : Int)), r)
        | none => none := rfl
    rw [h1, parseUInt_natDec i.natAbs rest hns]
    show (if fracFollows rest || expFollows rest then none
          else some (Json.int (-(i.natAbs : Int)), rest)) = some (Json.int i, rest)
    rw [fracFollows_of_numSafe rest hns, expFollows_of_numSafe rest hns]
    simp only [Bool.or_self, Bool.false_eq_true, if_false, Option.some.injEq, Prod.mk.injEq,
      Json.int.injEq]
    exact ⟨by omega, trivial⟩
  · obtain ⟨c, t, he, hc1, hc2⟩ := natDec_cons i.toNat
    rw [he, List.cons_append]
    simp only [parseNumber]
    split
    · rename_i r heq
      injection heq with hh _
      omega
    · rw [← List.cons_append, ← he, parseUInt_natDec i.toNat rest hns]
      show (if fracFollows rest || expFollows rest then none
            else some (Json.int ((i.toNat : Nat) : Int), rest)) = some (Json.int i, rest)
      rw [fracFollows_of_numSafe rest hns, expFollows_of_numSafe rest hns]
      simp only [Bool.or_self, Bool.false_eq_true, if_false, Option.some.injEq, Prod.mk.injEq,
        Json.int.injEq]
      exact ⟨by omega, trivial⟩

/-! ### The value scanner inverts the serializer -/

theorem intDump_head (i : Int) :
    ∃ c t, intDump i = c :: t ∧ (c = 45 ∨ (48 ≤ c ∧ c ≤ 57)) := by
  unfold intDump
  split_ifs
  · exact ⟨45, _, rfl, Or.inl rfl⟩
  · obtain ⟨c, t, he, h1, h2⟩ := natDec_cons i.toNat
    exact ⟨c, t, he, Or.inr ⟨h1, h2⟩⟩

theorem dumps_head (v : Json) :
    ∃ c t, dumps v = c :: t ∧
      (c = 34 ∨ c = 123 ∨ c = 91 ∨ c = 110 ∨ c = 116 ∨ c = 102 ∨ c = 45 ∨
        (48 ≤ c ∧ c ≤ 57)) := by
  cases v with
  | null => exact ⟨110, _, rfl, by omega⟩
  | bool b =>
    cases b with
    | false => exact ⟨102, _, rfl, by omega⟩
    | true => exact ⟨116, _, rfl, by omega⟩
  | int i =>
    obtain ⟨c, t, he, hc⟩ := intDump_head i
    exact ⟨c, t, he, by omega⟩
  | str s => exact ⟨34, _, rfl, by omega⟩
  | arr xs =>
    cases xs with
    | nil => exact ⟨91, _, rfl, by omega⟩
    | cons x t => exact ⟨91, _, rfl, by omega⟩
  | obj kvs =>
    cases kvs with
    | nil => exact ⟨123, _, rfl, by omega⟩
    | cons kv t =>
      cases kv
      exact ⟨123, _, rfl, by omega⟩

theorem isJsonWs_eq_false (c : Nat) (h : c ≠ 32 ∧ c ≠ 9 ∧ c ≠ 10 ∧ c ≠ 13) :
    isJsonWs c = false := by
  simp only [isJsonWs, Bool.or_eq_false_iff, beq_eq_false_iff_ne, ne_eq]
  exact ⟨⟨⟨h.1, h.2.1⟩, h.2.2.1⟩, h.2.2.2⟩

theorem skipWs_cons_notws (c : Nat) (t : List Nat) (h : isJsonWs c = false) :
    skipWs (c :: t) = c :: t := by
  simp [skipWs, List.dropWhile_cons, h]

theorem skipWs_32 (t : List Nat) : skipWs (32 :: t) = skipWs t := by
  simp [skipWs, List.dropWhile_cons, show isJsonWs 32 = true from rfl]

theorem skipWs_dumps (v : Json) (X : List Nat) : skipWs (dumps v ++ X) = dumps v ++ X := by
  obtain ⟨c, t, he, hc⟩ := dumps_head v
  rw [he, List.cons_append]
  exact skipWs_cons_notws c _ (isJsonWs_eq_false c (by omega))

theorem numSafe_44 (t : List Nat) : numSafeB (44 :: t) = true := rfl

theorem numSafe_93 (t : List Nat) : numSafeB (93 :: t) = true := rfl

theorem numSafe_125 (t : List Nat) : numSafeB (125 :: t) = true := rfl

theorem dumps_length_pos (v : Json) : 1 ≤ (dumps v).length :=
  List.length_pos.mpr (dumps_ne_nil v)

theorem dumpsMembersTail_cons (k : List Nat) (v : Json) (kvs : List (List Nat × Json)) :
    dumpsMembersTail ((k, v) :: kvs) = 44 :: 32 :: dumpsMember1 k v kvs := by
  simp [dumpsMembersTail, dumpsMember1]

theorem dumps_obj_cons (k : List Nat) (v : Json) (kvs : List (List Nat × Json)) :
    dumps (.obj ((k, v) :: kvs)) = 123 :: (dumpsMember1 k v kvs ++ [125]) := by
  simp [dumps, dumpsMember1]

mutual
theorem rt_val : ∀ (v : Json) (f : Nat) (rest : List Nat),
    validJson v = true → (dumps v).length < f → numSafeB rest = true →
    parseVal f (dumps v ++ rest) = some (v, rest)
  | .null, f, rest, _, hf, _ => by
    obtain ⟨g, rfl⟩ : ∃ g, f = g + 1 := ⟨f - 1, by omega⟩
    simp [dumps, parseVal]
  | .bool true, f, rest, _, hf, _ => by
    obtain ⟨g, rfl⟩ : ∃ g, f = g + 1 := ⟨f - 1, by omega⟩
    simp [dumps, parseVal]
  | .bool false, f, rest, _, hf, _ => by
    obtain ⟨g, rfl⟩ : ∃ g, f = g + 1 := ⟨f - 1, by omega⟩
    simp [dumps, parseVal]
  | .int i, f, rest, _, hf, hns => by
    obtain ⟨g, rfl⟩ : ∃ g, f = g + 1 := ⟨f - 1, by omega⟩
    obtain ⟨c, t, he, hc⟩ := intDump_head i
    rw [show dumps (.int i) = intDump i from rfl, he, List.cons_append]
    simp only [parseVal]
    rw [if_neg (by omega), if_neg (by omega), if_neg (by omega), if_neg (by omega),
        if_neg (by omega), if_neg (by omega), ← List.cons_append, ← he]
    exact parseNumber_intDump i rest hns
  | .str s, f, rest, hv, hf, _ => by
    obtain ⟨g, rfl⟩ : ∃ g, f = g + 1 := ⟨f - 1, by omega⟩
    have hsh : dumps (.str s) ++ rest = 34 :: (escapeString s ++ 34 :: rest) := by
      simp [dumps]
    rw [hsh]
    simp only [parseVal, if_pos rfl]
    rw [psb_escapeString s rest (by simpa [validJson] using hv)]
    rfl
  | .arr [], f, rest, _, hf, _ => by
    obtain ⟨g, rfl⟩ : ∃ g, f = g + 1 := ⟨f - 1, by omega⟩
    simp [dumps, parseVal, skipWs, List.dropWhile_cons, isJsonWs]
  | .arr (x :: xs), f, rest, hv, hf, _ => by
    obtain ⟨g, rfl⟩ : ∃ g, f = g + 1 := ⟨f - 1, by omega⟩
    have hvx : validJson x = true ∧ validElems xs = true := by
      simpa [Bool.and_eq_true] using (show (validJson x && validElems xs) = true from hv)
    have hsh : dumps (.arr (x :: xs)) ++ rest =
        91 :: ((dumps x ++ dumpsElemsTail xs) ++ 93 :: rest) := by
      simp [dumps]
    have hlen : (dumps (.arr (x :: xs))).length =
        (dumps x ++ dumpsElemsTail xs).length + 2 := by
      simp [dumps]
      omega
    rw [hsh]
    simp only [parseVal]
    rw [if_neg (by omega), if_neg (by omega), if_pos trivial]
    rw [List.append_assoc, skipWs_dumps x _]
    obtain ⟨c, t, hx, hcops⟩ := dumps_head x
    rw [hx, List.cons_append]
    split
    · rename_i r2 heq
      injection heq with hh _
      omega
    · rw [← List.cons_append, ← hx, ← List.append_assoc,
          rt_elems x xs g rest hvx.1 hvx.2 (by omega)]
      rfl
  | .obj [], f, rest, _, hf, _ => by
    obtain ⟨g, rfl⟩ : ∃ g, f = g + 1 := ⟨f - 1, by omega⟩
    simp [dumps, parseVal, skipWs, List.dropWhile_cons, isJsonWs]
  | .obj ((k, v) :: kvs), f, rest, hv, hf, _ => by
    obtain ⟨g, rfl⟩ : ∃ g, f = g + 1 := ⟨f - 1, by omega⟩
    have hvx0 : ((k.all validCp && validJson v) && validMembers kvs) = true := hv
    have hvx : (k.all validCp = true ∧ validJson v = true) ∧ validMembers kvs = true := by
      simpa [Bool.and_eq_true] using hvx0
    have hsh : dumps (.obj ((k, v) :: kvs)) ++ rest =
        123 :: (dumpsMember1 k v kvs ++ 125 :: rest) := by
      rw [dumps_obj_cons]
      simp
    have hlen : (dumps (.obj ((k, v) :: kvs))).length =
        (dumpsMember1 k v kvs).length + 2 := by
      rw [dumps_obj_cons]
      simp
    rw [hsh]
    simp only [parseVal]
    rw [if_neg (by omega), if_pos trivial]
    have hm : dumpsMember1 k v kvs ++ 125 :: rest =
        34 :: (escapeString k ++ 34 :: 58 :: 32 :: dumps v ++ dumpsMembersTail kvs ++ 125 :: rest) := by
      simp [dumpsMember1]
    rw [hm, skipWs_cons_notws 34 _ (by decide)]
    split
    · rename_i r2 heq
      injection heq with hh _
      omega
    · rw [← hm, rt_members k v kvs g rest hvx.1.1 hvx.1.2 hvx.2 (by omega)]
      rfl
termination_by v f rest hv hf hns => sizeOf v

theorem rt_elems : ∀ (x : Json) (xs : List Json) (f : Nat) (rest : List Nat),
    validJson x = true → validElems xs = true →
    (dumps x ++ dumpsElemsTail xs).length + 1 < f →
    parseElems f ((dumps x ++ dumpsElemsTail xs) ++ 93 :: rest) = some (x :: xs, rest)
  | x, [], f, rest, hvx, _, hf => by
    obtain ⟨g, rfl⟩ : ∃ g, f = g + 1 := ⟨f - 1, by omega⟩
    have hsh : (dumps x ++ dumpsElemsTail []) ++ 93 :: rest = dumps x ++ 93 :: rest := by
      simp [dumpsElemsTail]
    rw [hsh]
    simp only [parseElems,
      rt_val x g (93 :: rest) hvx (by simp [dumpsElemsTail] at hf; omega) (numSafe_93 rest),
      skipWs_cons_notws 93 rest (by decide)]
  | x, y :: ys, f, rest, hvx, hvt, hf => by
    obtain ⟨g, rfl⟩ : ∃ g, f = g + 1 := ⟨f - 1, by omega⟩
    have hvy : validJson y = true ∧ validElems ys = true := by
      simpa [validElems, Bool.and_eq_true] using hvt
    have hsh : (dumps x ++ dumpsElemsTail (y :: ys)) ++ 93 :: rest =
        dumps x ++ 44 :: 32 :: ((dumps y ++ dumpsElemsTail ys) ++ 93 :: rest) := by
      simp [dumpsElemsTail]
    have hlx := dumps_length_pos x
    have hly := dumps_length_pos y
    have hlen : (dumps x ++ dumpsElemsTail (y :: ys)).length =
        (dumps x).length + 2 + (dumps y ++ dumpsElemsTail ys).length := by
      simp [dumpsElemsTail]
      omega
    have hskip : skipWs (32 :: ((dumps y ++ dumpsElemsTail ys) ++ 93 :: rest)) =
        (dumps y ++ dumpsElemsTail ys) ++ 93 :: rest := by
      rw [skipWs_32, List.append_assoc, skipWs_dumps]
    rw [hsh]
    simp only [parseElems,
      rt_val x g _ hvx (by omega) (numSafe_44 _),
      skipWs_cons_notws 44 _ (by decide),
      hskip,
      rt_elems y ys g rest hvy.1 hvy.2 (by omega)]
    try rfl
termination_by x xs f rest hv hvt hf => sizeOf x + sizeOf xs

theorem rt_members : ∀ (k : List Nat) (v : Json) (kvs : List (List Nat × Json))
    (f : Nat) (rest : List Nat),
    k.all validCp = true → validJson v = true → validMembers kvs = true →
    (dumpsMember1 k v kvs).length < f →
    parseMembers f (dumpsMember1 k v kvs ++ 125 :: rest) = some ((k, v) :: kvs, rest)
  | k, v, [], f, rest, hk, hvv, _, hf => by
    obtain ⟨g, rfl⟩ : ∃ g, f = g + 1 := ⟨f - 1, by omega⟩
    have hlv := dumps_length_pos v
    have hlen : (dumpsMember1 k v []).length =
        (escapeString k).length + 4 + (dumps v).length := by
      simp [dumpsMember1, dumpsMembersTail]
      omega
    have hsh : dumpsMember1 k v [] ++ 125 :: rest =
        34 :: (escapeString k ++ 34 :: (58 :: 32 :: (dumps v ++ 125 :: rest))) := by
      simp [dumpsMember1, dumpsMembersTail]
    have hskip : skipWs (32 :: (dumps v ++ 125 :: rest)) = dumps v ++ 125 :: rest := by
      rw [skipWs_32, skipWs_dumps]
    rw [hsh]
    simp only [parseMembers,
      psb_escapeString k _ hk,
      skipWs_cons_notws 58 _ (by decide),
      hskip,
      rt_val v g (125 :: rest) hvv (by omega) (numSafe_125 rest),
      skipWs_cons_notws 125 rest (by decide)]
  | k, v, (k2, v2) :: ms, f, rest, hk, hvv, hvm, hf => by
    obtain ⟨g, rfl⟩ : ∃ g, f = g + 1 := ⟨f - 1, by omega⟩
    have hvm' : (k2.all validCp = true ∧ validJson v2 = true) ∧ validMembers ms = true := by
      simpa [validMembers, Bool.and_eq_true] using hvm
    have hlv := dumps_length_pos v
    have hlen : (dumpsMember1 k v ((k2, v2) :: ms)).length =
        (escapeString k).length + 6 + (dumps v).length + (dumpsMember1 k2 v2 ms).length := by
      rw [dumpsMember1, dumpsMembersTail_cons]
      simp [dumpsMember1]
      omega
    have hsh : dumpsMember1 k v ((k2, v2) :: ms) ++ 125 :: rest =
        34 :: (escapeString k ++ 34 ::
          (58 :: 32 :: (dumps v ++ 44 :: 32 :: (dumpsMember1 k2 v2 ms ++ 125 :: rest)))) := by
      rw [dumpsMember1, dumpsMembersTail_cons]
      simp
    have hskip1 : skipWs (32 :: (dumps v ++ 44 :: 32 :: (dumpsMember1 k2 v2 ms ++ 125 :: rest))) =
        dumps v ++ 44 :: 32 :: (dumpsMember1 k2 v2 ms ++ 125 :: rest) := by
      rw [skipWs_32, skipWs_dumps]
    have hskip2 : skipWs (32 :: (dumpsMember1 k2 v2 ms ++ 125 :: rest)) =
        dumpsMember1 k2 v2 ms ++ 125 :: rest := by
      rw [skipWs_32]
      rw [show dumpsMember1 k2 v2 ms ++ 125 :: rest =
            34 :: (escapeString k2 ++ 34 :: 58 :: 32 :: dumps v2 ++
              dumpsMembersTail ms ++ 125 :: rest) from by
        simp [dumpsMember1]]
      exact skipWs_cons_notws _ _ (by decide)
    rw [hsh]
    simp only [parseMembers,
      psb_escapeString k _ hk,
      skipWs_cons_notws 58 _ (by decide),
      hskip1,
      rt_val v g _ hvv (by omega) (numSafe_44 _),
      skipWs_cons_notws 44 _ (by decide),
      hskip2,
      rt_members k2 v2 ms g rest hvm'.1.1 hvm'.1.2 hvm'.2 (by omega)]
    try rfl
termination_by k v kvs f rest hk hvv hvm hf => sizeOf v + sizeOf kvs
end


theorem loads_dumps (v : Json) (h : validJson v = true) : loads (dumps v) = some v := by
  unfold loads
  have hskip : skipWs (dumps v) = dumps v := by
    have := skipWs_dumps v []
    simpa using this
  rw [hskip]
  have hrt := rt_val v ((dumps v).length + 1) [] h (by omega) rfl
  rw [show dumps v ++ [] = dumps v from by simp] at hrt
  rw [hrt]
  rfl

/-- C2: for every valid payload `P`, decoding the bytes produced by
encoding `P` yields `P` back, with the whole byte stream consumed:
`Client.read_stdout`'s framing decode plus `json.loads` is a left
inverse of `format_request` plus UTF-8 encoding.  Non-ASCII characters
in `P`'s strings are covered: `ensure_ascii` serialization escapes them
to `\uXXXX` (or surrogate-pair) form, and the decoder restores them. -/
theorem c2_decode_encode (p : Json) (h : validJson p = true) :
    decodeMessage (utf8Encode (format_request p)) = .ok (some p, []) := by
  rw [utf8Encode_ascii _ (format_request_ascii p)]
  have hshape : format_request p =
      contentLengthHeader ++ natDec (dumps p).length ++ 13 :: 10 :: 13 :: 10 :: dumps p := by
    simp [format_request, crlf]
  rw [hshape]
  unfold decodeMessage
  rw [readHeadersA_encode _ (dumps p).length (dumps p) 0 (by simp; omega)]
  have hpos : (0 : Int) < ((dumps p).length : Int) := by
    have := dumps_length_pos p
    omega
  simp only [hpos, if_true, Int.toNat_natCast, List.take_length,
    utf8Decode_ascii (dumps p) (fun c hc => by have := dumps_ascii p c hc; omega),
    loads_dumps p h, List.drop_length]

/-- Witness for C2 at a payload whose string value holds the non-ASCII
code points U+00E9 and U+1F4A9. -/
theorem c2_decode_encode_witness :
    validJson (Json.obj [(cl ['i', 'd'], .int 1), (cl ['k'], .str [233, 128169])]) = true ∧
    decodeMessage (utf8Encode (format_request
        (Json.obj [(cl ['i', 'd'], .int 1), (cl ['k'], .str [233, 128169])]))) =
      .ok (some (Json.obj [(cl ['i', 'd'], .int 1), (cl ['k'], .str [233, 128169])]), []) :=
  ⟨rfl, c2_decode_encode _ rfl⟩


/-! ### The request-id counter and the pending-handler table -/

theorem sendN_spec : ∀ (reqs : List ((List Nat × Json) × Option Nat)) (st : ClientState),
    (sendN st reqs).2 = List.range' (st.request_id + 1) reqs.length ∧
    (sendN st reqs).1.request_id = st.request_id + reqs.length := by
  intro reqs
  induction reqs with
  | nil => intro st; simp [sendN]
  | cons r rest ih =>
    intro st
    obtain ⟨⟨m, p⟩, h⟩ := r
    simp only [sendN, send_request, List.length_cons]
    constructor
    · have h1 := (ih ⟨st.request_id + 1,
        match h with
        | some hd => dictSet st.handlers ((st.request_id + 1 : Nat) : Int) (some hd)
        | none => st.handlers⟩).1
      simp only at h1
      rw [h1, List.range'_succ]
    · have h2 := (ih ⟨st.request_id + 1,
        match h with
        | some hd => dictSet st.handlers ((st.request_id + 1 : Nat) : Int) (some hd)
        | none => st.handlers⟩).2
      simp only at h2
      rw [h2]
      omega

/-- C6: for every sequence of `send_request` calls on one client with no
interleaved responses, the assigned identifiers are exactly `1, 2, ...,
N` in order (hence strictly increasing, starting at 1, with no repeat),
and the counter ends at `N`, so any later request gets an id above `N`
— ids are never reused for the lifetime of the client (nothing ever
decrements `request_id`, and responses do not touch it). -/
theorem c6_request_ids (reqs : List ((List Nat × Json) × Option Nat)) :
    (sendN initState reqs).2 = List.range' 1 reqs.length ∧
    (sendN initState reqs).1.request_id = reqs.length := by
  have h := sendN_spec reqs initState
  simpa [initState] using h

theorem dictSet_append (hs : List (Int × Option Nat)) (k : Int) (v : Option Nat)
    (h : ∀ p ∈ hs, p.1 ≠ k) : dictSet hs k v = hs ++ [(k, v)] := by
  induction hs with
  | nil => rfl
  | cons q t ih =>
    obtain ⟨k2, v2⟩ := q
    simp only [dictSet]
    rw [if_neg (h (k2, v2) (by simp)), ih (fun p hp => h p (by simp [hp]))]
    rfl

theorem sendN_handlers_tagged : ∀ (N : Nat) (st : ClientState) (tag : Nat → Nat)
    (m : List Nat) (pr : Json),
    (∀ p ∈ st.handlers, p.1 < (st.request_id : Int) + 1) →
    (sendN st ((List.range' (st.request_id + 1) N).map
        (fun i => ((m, pr), some (tag i))))).1.handlers =
      st.handlers ++ (List.range' (st.request_id + 1) N).map
        (fun (i : Nat) => ((i : Int), some (tag i))) := by
  intro N
  induction N with
  | zero => intro st tag m pr _; simp [sendN]
  | succ n ih =>
    intro st tag m pr h
    rw [List.range'_succ, List.map_cons, List.map_cons]
    simp only [sendN, send_request]
    rw [dictSet_append st.handlers _ _ (fun p hp => by have := h p hp; omega)]
    have hih := ih ⟨st.request_id + 1,
        st.handlers ++ [(((st.request_id + 1 : Nat) : Int), some (tag (st.request_id + 1)))]⟩
      tag m pr (by
        intro p hp
        simp only at hp ⊢
        rcases List.mem_append.mp hp with hp | hp
        · have := h p hp
          push_cast
          omega
        · simp only [List.mem_singleton] at hp
          subst hp
          push_cast
          omega)
    simp only at hih
    rw [hih]
    simp

theorem dictGet_range_map : ∀ (N a : Nat) (tag : Nat → Nat) (i : Nat),
    a ≤ i → i < a + N →
    dictGet ((List.range' a N).map (fun (j : Nat) => ((j : Int), some (tag j)))) (i : Int) =
      some (some (tag i)) := by
  intro N
  induction N with
  | zero => intro a tag i h1 h2; omega
  | succ n ih =>
    intro a tag i h1 h2
    rw [List.range'_succ, List.map_cons]
    simp only [dictGet]
    by_cases he : a = i
    · subst he
      rw [if_pos rfl]
    · rw [if_neg (fun hc => he (by exact_mod_cast hc))]
      exact ih (a + 1) tag i (by omega) (by omega)

theorem c1_table (N : Nat) (tag : Nat → Nat) (m : List Nat) (pr : Json) :
    (sendN initState ((List.range' 1 N).map (fun i => ((m, pr), some (tag i))))).1.handlers =
      (List.range' 1 N).map (fun (i : Nat) => ((i : Int), some (tag i))) := by
  have h := sendN_handlers_tagged N initState tag m pr (by simp [initState])
  simpa [initState] using h

theorem processPayload_response (hs : List (Int × Option Nat)) (i : Int) (r : Json) (t : Nat)
    (hget : dictGet hs i = some (some t)) :
    processPayload hs (respMsg i r) = (hs, [Ev.gotJson, Ev.handlerInvoked i t r], .next) := by
  simp [processPayload, respMsg, jsonGet, keyId, keyResult, keyMethod, keyError, cl,
    response_handler, pyIntOfJson, hget]

theorem processPayloads_resps (hs : List (Int × Option Nat)) (tag : Nat → Nat)
    (res : Nat → Json) :
    ∀ (order : List Nat), (∀ i ∈ order, dictGet hs (i : Int) = some (some (tag i))) →
      (processPayloads hs (order.map (fun (i : Nat) => respMsg (i : Int) (res i)))).1 = hs ∧
      invocationsOf (processPayloads hs
          (order.map (fun (i : Nat) => respMsg (i : Int) (res i)))).2.1 =
        order.map (fun (i : Nat) => ((i : Int), tag i, res i)) ∧
      (processPayloads hs (order.map (fun (i : Nat) => respMsg (i : Int) (res i)))).2.2 =
        StepFlow.next := by
  intro order
  induction order with
  | nil => intro _; exact ⟨rfl, rfl, rfl⟩
  | cons i t ih =>
    intro h
    have hstep := processPayload_response hs (i : Int) (res i) (tag i) (h i (by simp))
    have iht := ih (fun j hj => h j (by simp [hj]))
    simp only [List.map_cons, processPayloads, hstep]
    refine ⟨iht.1, ?_, iht.2.2⟩
    simp only [invocationsOf, List.filterMap_append] at iht ⊢
    rw [iht.2.1]
    rfl

/-- C1: with `N` requests pending (each registered at send time with its
own handler), delivering the `N` responses in any permutation of their
ids invokes each registered handler exactly once, with the result
payload of its own request: the invocation log is exactly one
`(id, handler, result)` triple per id, each carrying that id's own
result, regardless of arrival order; nothing crashes the loop. -/
theorem c1_each_handler_once (N : Nat) (tag : Nat → Nat) (res : Nat → Json)
    (m : List Nat) (pr : Json) (order : List Nat)
    (hperm : order.Perm (List.range' 1 N)) :
    let table := (sendN initState
      ((List.range' 1 N).map (fun i => ((m, pr), some (tag i))))).1.handlers
    let out := processPayloads table (order.map (fun (i : Nat) => respMsg (i : Int) (res i)))
    invocationsOf out.2.1 = order.map (fun (i : Nat) => ((i : Int), tag i, res i)) ∧
    (∀ i ∈ List.range' 1 N,
      (invocationsOf out.2.1).filter (fun x => x.1 == (i : Int)) =
        [((i : Int), tag i, res i)]) ∧
    out.2.2 = StepFlow.next := by
  intro table out
  have htab : table = (List.range' 1 N).map (fun (i : Nat) => ((i : Int), some (tag i))) :=
    c1_table N tag m pr
  have hmem : ∀ i ∈ order, dictGet table (i : Int) = some (some (tag i)) := by
    intro i hi
    have hr : i ∈ List.range' 1 N := hperm.mem_iff.mp hi
    have hb := List.mem_range'_1.mp hr
    rw [htab]
    exact dictGet_range_map N 1 tag i hb.1 (by omega)
  have hmain := processPayloads_resps table tag res order hmem
  refine ⟨hmain.2.1, ?_, hmain.2.2⟩
  intro i hi
  rw [hmain.2.1, List.filter_map]
  have hcong : order.filter
      ((fun x => x.1 == (i : Int)) ∘ (fun (j : Nat) => ((j : Int), tag j, res j))) =
      order.filter (fun j => j == i) := by
    apply List.filter_congr
    intro j _
    simp only [Function.comp]
    by_cases hji : j = i
    · subst hji; simp
    · have hji2 : (j : Int) ≠ (i : Int) := by exact_mod_cast hji
      simp [hji, hji2]
  rw [hcong]
  have hperm2 := hperm.filter (fun j => j == i)
  have hnod : (List.range' 1 N).Nodup := List.nodup_range' 1 N 1 Nat.one_pos
  have hcnt : (List.range' 1 N).count i = 1 := List.count_eq_one_of_mem hnod hi
  have hfe : (List.range' 1 N).filter (fun j => j == i) = [i] := by
    rw [List.filter_beq, hcnt]
    rfl
  rw [hfe] at hperm2
  rw [List.perm_singleton.mp hperm2]
  rfl

/-- Witness for C1 with three pending requests whose responses arrive in
the order 2, 3, 1. -/
theorem c1_each_handler_once_witness :
    ([2, 3, 1] : List Nat).Perm (List.range' 1 3) ∧
    invocationsOf (processPayloads
        (sendN initState ((List.range' 1 3).map
          (fun i => ((cl ['m'], Json.null), some i)))).1.handlers
        (([2, 3, 1] : List Nat).map (fun (i : Nat) => respMsg (i : Int) (Json.int i)))).2.1 =
      ([2, 3, 1] : List Nat).map (fun (i : Nat) => ((i : Int), i, Json.int i)) :=
  ⟨by decide,
   (c1_each_handler_once 3 (fun i => i) (fun i => Json.int i) (cl ['m']) Json.null
     [2, 3, 1] (by decide)).1⟩

/-- C4 counterexample: after sending one request with id 1 (handler
registered) and dispatching the response `{"id": 1, "result": {}}`, the
Pending Handler Table is NOT empty — `response_handler` never deletes
the entry, so the claim's "the table is empty afterward" fails. -/
theorem c4_counterexample :
    (processPayload
        (send_request initState (cl ['i','n','i','t','i','a','l','i','z','e'])
          Json.null (some 7)).1.handlers
        (respMsg 1 (Json.obj []))).1 ≠ [] := by
  decide

/-- C4 (amended): dispatching a response never removes anything from the
Pending Handler Table (no branch of the dispatch code mutates it); in
the concrete scenario — one request sent with id 1, then
`{"id": 1, "result": {}}` dispatched — the handler for id 1 is invoked
exactly once with `{}`, and the table still contains the id-1 entry
afterward. -/
theorem c4_amended_entry_kept :
    (∀ (hs : List (Int × Option Nat)) (payload : Json), (processPayload hs payload).1 = hs) ∧
    invocationsOf (processPayload
        (send_request initState (cl ['i','n','i','t','i','a','l','i','z','e'])
          Json.null (some 7)).1.handlers
        (respMsg 1 (Json.obj []))).2.1 = [(1, 7, Json.obj [])] ∧
    (processPayload
        (send_request initState (cl ['i','n','i','t','i','a','l','i','z','e'])
          Json.null (some 7)).1.handlers
        (respMsg 1 (Json.obj []))).1 = [(1, some 7)] := by
  refine ⟨?_, rfl, rfl⟩
  intro hs payload
  cases payload with
  | null => rfl
  | bool b => rfl
  | int i => rfl
  | str s => rfl
  | arr xs => rfl
  | obj kvs =>
    simp only [processPayload]
    repeat' split
    all_goals rfl

/-- C7: a response whose id has no entry in the Pending Handler Table
produces log events (`response_handler` logs and re-raises the
`KeyError`, which the loop's `except Exception` catches and logs) and
zero handler invocations; the iteration ends in `next`, so the loop
stays alive, and the following messages are processed exactly as they
would have been without the stray response. -/
theorem c7_unknown_id (hs : List (Int × Option Nat)) (k : Int) (r : Json) (ps : List Json)
    (hget : dictGet hs k = none) :
    processPayload hs (respMsg k r) =
      (hs, [Ev.gotJson, Ev.debugRespError k, Ev.printfHandlingErr], .next) ∧
    invocationsOf [Ev.gotJson, Ev.debugRespError k, Ev.printfHandlingErr] = [] ∧
    processPayloads hs (respMsg k r :: ps) =
      ((processPayloads hs ps).1,
        [Ev.gotJson, Ev.debugRespError k, Ev.printfHandlingErr] ++ (processPayloads hs ps).2.1,
        (processPayloads hs ps).2.2) := by
  have h1 : processPayload hs (respMsg k r) =
      (hs, [Ev.gotJson, Ev.debugRespError k, Ev.printfHandlingErr], .next) := by
    simp [processPayload, respMsg, jsonGet, keyId, keyResult, keyMethod, keyError, cl,
      response_handler, pyIntOfJson, hget]
  refine ⟨h1, rfl, ?_⟩
  simp only [processPayloads, h1]

/-- Witness for C7 at an empty table and the stray response id 5. -/
theorem c7_unknown_id_witness :
    dictGet ([] : List (Int × Option Nat)) 5 = none ∧
    processPayload [] (respMsg 5 Json.null) =
      ([], [Ev.gotJson, Ev.debugRespError 5, Ev.printfHandlingErr], .next) :=
  ⟨rfl, (c7_unknown_id [] 5 Json.null [] rfl).1⟩

/-- C8 counterexample: a response of shape `{id: 1, error: {...}}`, with
a handler registered under id 1, produces zero handler invocations —
`read_stdout` checks `"error" in payload` before the id, so the
registered handler is never reached, refuting the claim that error
responses are handed to the same handler. -/
theorem c8_counterexample :
    invocationsOf (processPayload [((1 : Int), some 7)]
        (Json.obj [(keyId, .int 1),
          (keyError, .obj [(keyMessage, .str (cl ['b','o','o','m'])) ])])).2.1 = [] := rfl

/-- C8 (amended): any payload carrying an `error` field is routed to
the error branch, not to the response handler: no handler invocation
occurs, the table is untouched, the loop continues, the error is
logged, and the error's message is sent to the editor status sink.
Only error-free responses reach the registered handler (which then
receives the `result` payload). -/
theorem c8_amended_error_branch (hs : List (Int × Option Nat))
    (kvs ekvs : List (List Nat × Json))
    (herr : jsonGet kvs keyError = some (.obj ekvs)) :
    invocationsOf (processPayload hs (.obj kvs)).2.1 = [] ∧
    (processPayload hs (.obj kvs)).1 = hs ∧
    (processPayload hs (.obj kvs)).2.2 = .next ∧
    Ev.debugGotError ∈ (processPayload hs (.obj kvs)).2.1 ∧
    Ev.statusMessage (jsonGet ekvs keyMessage) ∈ (processPayload hs (.obj kvs)).2.1 := by
  refine ⟨?_, ?_, ?_, ?_, ?_⟩
  all_goals
    simp only [processPayload, herr]
    repeat' split
  all_goals simp [invocationsOf]

/-- Witness for C8 (amended) at the id-1 error response. -/
theorem c8_amended_error_branch_witness :
    jsonGet [(keyId, Json.int 1),
        (keyError, Json.obj [(keyMessage, Json.str (cl ['b','o','o','m']))])] keyError =
      some (Json.obj [(keyMessage, Json.str (cl ['b','o','o','m']))]) ∧
    invocationsOf (processPayload [((1 : Int), some 7)]
        (Json.obj [(keyId, Json.int 1),
          (keyError, Json.obj [(keyMessage, Json.str (cl ['b','o','o','m']))])])).2.1 = [] :=
  ⟨rfl, (c8_amended_error_branch [((1 : Int), some 7)]
    [(keyId, Json.int 1), (keyError, Json.obj [(keyMessage, Json.str (cl ['b','o','o','m']))])]
    [(keyMessage, Json.str (cl ['b','o','o','m']))] rfl).1⟩

/-- C10: a response whose id field is a decimal string is coerced with
`int(...)` before the table lookup, so the handler registered under the
integer id is the one invoked, with the response's result. -/
theorem c10_string_id (hs : List (Int × Option Nat)) (s : List Nat) (n : Int) (t : Nat)
    (r : Json) (hparse : pyIntBytes s = some n) (hget : dictGet hs n = some (some t)) :
    processPayload hs (Json.obj [(keyId, .str s), (keyResult, r)]) =
      (hs, [Ev.gotJson, Ev.handlerInvoked n t r], .next) := by
  simp [processPayload, jsonGet, keyId, keyResult, keyMethod, keyError, cl,
    response_handler, pyIntOfJson, hparse, hget]

/-- Witness for C10 at the string id `"3"`. -/
theorem c10_string_id_witness :
    pyIntBytes (cl ['3']) = some 3 ∧
    dictGet [((3 : Int), some 9)] 3 = some (some 9) ∧
    processPayload [((3 : Int), some 9)]
        (Json.obj [(keyId, .str (cl ['3'])), (keyResult, .bool true)]) =
      ([((3 : Int), some 9)], [Ev.gotJson, Ev.handlerInvoked 3 9 (.bool true)], .next) :=
  ⟨rfl, rfl, c10_string_id [((3 : Int), some 9)] (cl ['3']) 3 9 (.bool true) rfl rfl⟩

/-- C3 (code bug): a frame whose one-byte body `{` is not valid JSON
kills the protocol reader loop — `json.loads` raises a
`JSONDecodeError` (a `ValueError`), which the `except IOError` at line
93 (whose own handler was clearly meant for this case: it logs
`"Got a non-JSON payload"` and continues) cannot catch, and neither can
the outer `except IOError`; the thread dies and the perfectly
well-formed response that follows on the same channel is never
dispatched (no events at all), even though the same response alone is
dispatched to its handler. -/
theorem c3_malformed_body_crashes_loop :
    runReadStdout (contentLengthHeader ++ [49, 13, 10, 13, 10, 123] ++
        utf8Encode (format_request (respMsg 1 (Json.obj []))))
      [((1 : Int), some 7)] =
      ([((1 : Int), some 7)], [], LoopEnd.crashed PyExc.valueError) ∧
    runReadStdout (utf8Encode (format_request (respMsg 1 (Json.obj []))))
      [((1 : Int), some 7)] =
      ([((1 : Int), some 7)],
        [Ev.gotJson, Ev.handlerInvoked 1 7 (Json.obj []), Ev.stdoutEnded],
        LoopEnd.processEnded) :=
  ⟨rfl, rfl⟩

/-- C9 counterexample: right after `read_stdout`'s `except IOError`
handler runs (it sets `self.process = None`), the diagnostic loop's
next liveness poll does not exit cleanly — it raises. -/
theorem c9_counterexample :
    read_stderr_poll (read_stdout_on_io_error (some true)).1 ≠ StderrStep.cleanExit := by
  decide

/-- C9 (amended): a hard read failure in the protocol loop is not
contained to that loop: its handler nulls the shared `self.process`
field, so the diagnostic-channel loop's very next
`self.process.poll()` raises an uncaught `AttributeError` and that
thread dies too, instead of keeping running and later exiting cleanly
through its own termination detection. -/
theorem c9_amended_stderr_crashes (p : Option Bool) :
    read_stderr_poll (read_stdout_on_io_error p).1 = .crashed .attributeError := rfl

end LSPClient
